import Mathlib

/-!
Verification of the zomatoAIrecommender core against its specification.

This file shallowly embeds the deterministic retrieval engine
(`phase_2/retrieval.py`) and the grounded LLM response handling
(`phase_3/llm_recommender.py`, `phase_3/client.py`) in Lean 4 and proves the
spec claims about them.

Modelling conventions:
* Python numbers are modelled exactly: `float` values as `ℚ` (IEEE rounding is
  not modelled; none of the verified claims depends on rounding), `int` as `ℤ`.
  The one transcendental ingredient, `math.log1p` in the ranking score, is
  modelled with `Real.log`, so ranking definitions live in `ℝ` and are
  noncomputable.
* Python strings are modelled as `String` / `List Char` restricted to the
  ASCII behaviour of `str.strip`, `str.upper`, `str.lower` (Unicode
  case-mapping and exotic whitespace are out of scope).
* `int(...)` on strings is modelled with the full CPython grammar including
  PEP 515 underscore separators.  `float(...)` on strings is modelled with
  sign, digits, decimal point and exponent, plus the case-insensitive
  `nan`/`inf`/`infinity` literals where a claim depends on them (the
  `_parse_price` path); underscore separators in float literals are not
  modelled (they can only change which non-negative finite value or parse
  failure results, which no claim here depends on).
* A CPython `float` value is a `PyFloat`: a finite value kept exact as `ℚ`,
  `nan`, or an infinity.  Decimal-to-double rounding of finite values is not
  modelled; the overflow of out-of-range JSON number literals to `±inf`
  (which feeds the uncaught `OverflowError` of `int(...)`) is.
* pandas `Series.str.contains` interprets its pattern as a regular
  expression; it is modelled on the fragment of literal characters plus the
  `.` wildcard (patterns using other regex constructs are outside the
  model's scope and treated literally).
* Fallible Python code is modelled with `Option`/`Except`; an uncaught Python
  exception is an `Except.error`.
-/

set_option maxRecDepth 4000

namespace ZomatoRec

/-- Whitespace characters stripped by Python `str.strip()` (ASCII subset). -/
def isPyWsB (c : Char) : Bool :=
  decide (c ∈ [' ', '\t', '\n', '\r', '\x0b', '\x0c'])

/-- ASCII decimal digit test, as accepted by Python numeric parsing. -/
def isDigitC (c : Char) : Bool :=
  decide (c ∈ ['0', '1', '2', '3', '4', '5', '6', '7', '8', '9'])

/-- Numeric value of an ASCII digit (10 for non-digits; only used under an
`isDigitC` guard). -/
def digitVal (c : Char) : ℕ :=
  ['0', '1', '2', '3', '4', '5', '6', '7', '8', '9'].indexOf c

/-- Lower-case/upper-case ASCII letter pairs, the case table used by the
models of Python `str.upper()` / `str.lower()`. -/
def caseTable : List (Char × Char) :=
  [('a', 'A'), ('b', 'B'), ('c', 'C'), ('d', 'D'), ('e', 'E'), ('f', 'F'),
   ('g', 'G'), ('h', 'H'), ('i', 'I'), ('j', 'J'), ('k', 'K'), ('l', 'L'),
   ('m', 'M'), ('n', 'N'), ('o', 'O'), ('p', 'P'), ('q', 'Q'), ('r', 'R'),
   ('s', 'S'), ('t', 'T'), ('u', 'U'), ('v', 'V'), ('w', 'W'), ('x', 'X'),
   ('y', 'Y'), ('z', 'Z')]

/-- Model of Python `str.upper()` on a single character (ASCII). -/
def pyToUpper (c : Char) : Char :=
  match caseTable.find? (fun p => p.1 == c) with
  | some p => p.2
  | none => c

/-- Model of Python `str.lower()` on a single character (ASCII). -/
def pyToLower (c : Char) : Char :=
  match caseTable.find? (fun p => p.2 == c) with
  | some p => p.1
  | none => c

/-- Model of Python `str.strip()`: drop leading and trailing whitespace. -/
def pyStripList (cs : List Char) : List Char :=
  ((cs.dropWhile isPyWsB).reverse.dropWhile isPyWsB).reverse

/-- Model of Python `str.strip()` on `String`. -/
def pyStripStr (s : String) : String :=
  ⟨pyStripList s.data⟩

/-- Model of Python `str.lower()` on `String`. -/
def pyLowerStr (s : String) : String :=
  ⟨s.data.map pyToLower⟩

/-- Value of a string of ASCII digits, most significant first. -/
def digitsToNat (ds : List Char) : ℕ :=
  ds.foldl (fun a c => a * 10 + digitVal c) 0

/-- Split an optional leading sign, returning the sign as a `ℚ` factor. -/
def splitSignQ (cs : List Char) : ℚ × List Char :=
  match cs with
  | [] => (1, [])
  | c :: r => if c = '+' then (1, r) else if c = '-' then (-1, r) else (1, c :: r)

/-- Split an optional leading sign, returning the sign as a `ℤ` factor. -/
def splitSignZ (cs : List Char) : ℤ × List Char :=
  match cs with
  | [] => (1, [])
  | c :: r => if c = '+' then (1, r) else if c = '-' then (-1, r) else (1, c :: r)

/-- Core of the model of Python `float(str)` on an already-stripped character
list: optional sign, integer digits, optional fractional part, optional
exponent.  Returns `none` where CPython raises `ValueError`. -/
def pyParseFloatCore (cs : List Char) : Option ℚ :=
  let s := splitSignQ cs
  let ip := s.2.takeWhile isDigitC
  let rest1 := s.2.dropWhile isDigitC
  let fr : List Char × List Char :=
    match rest1 with
    | [] => ([], [])
    | c :: r =>
      if c = '.' then (r.takeWhile isDigitC, r.dropWhile isDigitC) else ([], c :: r)
  if ip = [] ∧ fr.1 = [] then none
  else
    let mant : ℚ := (digitsToNat ip : ℚ) + (digitsToNat fr.1 : ℚ) / (10 : ℚ) ^ fr.1.length
    match fr.2 with
    | [] => some (s.1 * mant)
    | e :: r =>
      if e = 'e' ∨ e = 'E' then
        let es := splitSignZ r
        let ed := es.2.takeWhile isDigitC
        if ed = [] ∨ es.2.dropWhile isDigitC ≠ [] then none
        else some (s.1 * mant * (10 : ℚ) ^ (es.1 * (digitsToNat ed : ℤ)))
      else none

/-- Model of Python `float(str)`: CPython strips whitespace before parsing. -/
def pyFloatStr (cs : List Char) : Option ℚ :=
  pyParseFloatCore (pyStripList cs)

/-- Tail of a digit run with PEP 515 underscore separators, the grammar of
CPython `int(str)` after its first digit: `(digit | '_' digit)*`.  Returns
the run's digits (separators removed) and the unconsumed rest; an
underscore not followed by a digit stops the run with the `'_'` left in the
rest, which the caller rejects as trailing junk, exactly where CPython
raises `ValueError` (`"1_"`, `"1__2"`). -/
def udTail : List Char → List Char × List Char
  | [] => ([], [])
  | c :: r =>
    if isDigitC c then
      let p := udTail r
      (c :: p.1, p.2)
    else if c = '_' then
      match r with
      | d :: r2 =>
        if isDigitC d then
          let p := udTail r2
          (d :: p.1, p.2)
        else ([], c :: d :: r2)
      | [] => ([], [c])
    else ([], c :: r)
termination_by l => l.length
decreasing_by
  · simp only [List.length_cons]
    omega
  · simp only [List.length_cons]
    omega

/-- Core of the model of Python `int(str)`: optional sign, then a digit run
with optional single `_` separators between digits (PEP 515, `int("3_0") =
30`), and nothing else. -/
def pyParseIntCore (cs : List Char) : Option ℤ :=
  match (splitSignZ cs).2 with
  | [] => none
  | c :: r =>
    if isDigitC c then
      if (udTail r).2 = [] then
        some ((splitSignZ cs).1 * (digitsToNat (c :: (udTail r).1) : ℤ))
      else none
    else none

/-- Model of Python `int(str)`: CPython strips whitespace before parsing. -/
def pyIntStr (cs : List Char) : Option ℤ :=
  pyParseIntCore (pyStripList cs)

/-- Truncation toward zero, the behaviour of Python `int(float)`. -/
def ratTrunc (q : ℚ) : ℤ :=
  if q < 0 then -((-q).floor) else q.floor

/-- A CPython `float` value: a finite value (kept exact as `ℚ`; the IEEE
rounding of finite values is not modelled), `nan`, or one of the two
infinities. -/
inductive PyFloat where
  | finite (q : ℚ)
  | nan
  | inf
  | ninf
deriving DecidableEq

/-- Python's `x >= 0` on a float value: false for `nan` (every comparison
with `nan` is false) and for `-inf`, true for `inf` and non-negative finite
values. -/
def pfNonneg : PyFloat → Prop
  | .finite q => 0 ≤ q
  | .nan => False
  | .inf => True
  | .ninf => False

instance : DecidablePred pfNonneg := fun f =>
  match f with
  | .finite q => inferInstanceAs (Decidable (0 ≤ q))
  | .nan => inferInstanceAs (Decidable False)
  | .inf => inferInstanceAs (Decidable True)
  | .ninf => inferInstanceAs (Decidable False)

/-- The special literals of CPython `float(str)`: after an optional sign,
`nan`, `inf` and `infinity` are accepted case-insensitively (the sign is
ignored on `nan`). -/
def pyFloatLit (cs : List Char) : Option PyFloat :=
  if ((splitSignQ cs).2.map pyToLower) = ['n', 'a', 'n'] then some PyFloat.nan
  else if ((splitSignQ cs).2.map pyToLower) = ['i', 'n', 'f'] ∨
      ((splitSignQ cs).2.map pyToLower) = ['i', 'n', 'f', 'i', 'n', 'i', 't', 'y'] then
    some (if (splitSignQ cs).1 < 0 then PyFloat.ninf else PyFloat.inf)
  else none

/-- Model of CPython `float(str)` as a `PyFloat`: strip, then a
`nan`/`inf` literal or the numeric grammar.  Finite values stay exact:
decimal-to-double rounding — and hence the overflow of huge finite literals
to `inf` — is not modelled here, since the claims drawing on this model
concern only the sign or failure of the result, which rounding cannot
change (the JSON number model below, where an overflow feeds an uncaught
`OverflowError`, does model it). -/
def pyFloatPy (cs : List Char) : Option PyFloat :=
  match pyFloatLit (pyStripList cs) with
  | some f => some f
  | none => (pyParseFloatCore (pyStripList cs)).map PyFloat.finite

/-- Universe of raw pandas cell values fed to the Phase 2 field normalizers:
strings, floats, ints, bools, or `None`. -/
inductive PyVal where
  | pyStr (s : String)
  | pyFloat (q : ℚ)
  | pyInt (n : ℤ)
  | pyBool (b : Bool)
  | pyNone
deriving DecidableEq

/-- Model of the Python builtin `float(...)` on a `PyVal`; `none` models an
uncaught `TypeError`/`ValueError`. -/
def pyFloatFn (v : PyVal) : Option ℚ :=
  match v with
  | .pyStr s => pyFloatStr s.data
  | .pyFloat q => some q
  | .pyInt n => some (n : ℚ)
  | .pyBool b => some (if b then 1 else 0)
  | .pyNone => none

/-- Model of the Python builtin `int(...)` on a `PyVal`. -/
def pyIntFn (v : PyVal) : Option ℤ :=
  match v with
  | .pyStr s => pyIntStr s.data
  | .pyFloat q => some (ratTrunc q)
  | .pyInt n => some n
  | .pyBool b => some (if b then 1 else 0)
  | .pyNone => none

/-- Model of Python `str.replace(",", "")`. -/
def removeCommas (cs : List Char) : List Char :=
  cs.filter (fun c => decide (c ≠ ','))

/-- Embedding of `_parse_rating` (src/phase_2/retrieval.py): strip and
upper-case the raw text; the tokens `NEW`, `-` and the empty string map to
`0.0`; otherwise take the text before the first `/`, strip it and parse it
with `float`, defaulting to `0.0` on failure. -/
def _parse_rating (raw : PyVal) : ℚ :=
  match raw with
  | .pyStr s =>
    let text := (pyStripList s.data).map pyToUpper
    if text = ['N', 'E', 'W'] ∨ text = ['-'] ∨ text = [] then 0
    else
      let number_part := pyStripList (text.takeWhile (fun c => decide (c ≠ '/')))
      match pyFloatStr number_part with
      | some q => q
      | none => 0
  | _ => 0

/-- Embedding of `_parse_price` (src/phase_2/retrieval.py): for strings,
remove commas and strip, then `float(...)` — whose value may be `nan` or an
infinity, e.g. `float("nan")` — and any raised exception yields `0.0`. -/
def _parse_price (raw : PyVal) : PyFloat :=
  match (match raw with
         | .pyStr s => pyFloatPy (pyStripList (removeCommas s.data))
         | v => (pyFloatFn v).map PyFloat.finite) with
  | some f => f
  | none => .finite 0

/-- Embedding of `_parse_votes` (src/phase_2/retrieval.py): for strings,
remove commas and strip, then `int(...)`; any failure yields `0`. -/
def _parse_votes (raw : PyVal) : ℤ :=
  match (match raw with
         | .pyStr s => pyIntStr (pyStripList (removeCommas s.data))
         | v => pyIntFn v) with
  | some n => n
  | none => 0

/-- Plain substring containment as a Boolean: `pat` occurs contiguously
inside `hay`.  Used to phrase the literal-pattern case of the regex model
below. -/
def pyInStr (pat hay : String) : Bool :=
  hay.data.tails.any (fun t => pat.data.isPrefixOf t)

/-- Declarative substring predicate: `pat` is a contiguous run inside `hay`. -/
def SubstrOf (pat hay : String) : Prop :=
  ∃ l r, hay.data = l ++ pat.data ++ r

/-- One pattern character against one text character in the
literal-plus-dot regex fragment: `.` matches any character except a newline
(`re.search` without `DOTALL`), every other character only itself. -/
def reCharMatch (p c : Char) : Bool :=
  if p = '.' then decide (c ≠ '\n') else p == c

/-- The pattern matches a prefix of the text, character by character. -/
def reMatchHere : List Char → List Char → Bool
  | [], _ => true
  | _ :: _, [] => false
  | p :: ps, c :: cs => reCharMatch p c && reMatchHere ps cs

/-- Model of pandas `Series.str.contains(pat, na=False)`, which calls
`re.search(pat, text)`: the pattern matches at some start position of the
text.  The model covers the fragment of Python regexes made of literal
characters and the `.` wildcard; a pattern using any other regex construct
is outside the model's scope and treated literally here. -/
def pyContains (pat hay : String) : Bool :=
  hay.data.tails.any (fun t => reMatchHere pat.data t)

/-- The special characters of Python `re`; a pattern avoiding all of them
is matched literally by `re.search`, i.e. as plain substring containment. -/
def regexMeta : List Char :=
  ['.', '^', '$', '*', '+', '?', '\x7b', '\x7d', '[', ']', '\\', '|', '(', ')']

/-- A pattern with no regex special character. -/
def regexLiteral (s : String) : Prop :=
  ∀ c ∈ s.data, c ∉ regexMeta

instance (s : String) : Decidable (regexLiteral s) :=
  inferInstanceAs (Decidable (∀ c ∈ s.data, c ∉ regexMeta))

/-- Structured user constraints (src/phase_2/models.py `UserPreferences`).
`none` models a `None` field. -/
structure UserPreferences where
  min_price : Option ℚ
  max_price : Option ℚ
  locality : Option String
  min_rating : Option ℚ
  desired_cuisines : Option (List String)
deriving DecidableEq

/-- Restaurant record returned by the retrieval engine
(src/phase_2/models.py `Restaurant`). -/
structure Restaurant where
  name : String
  location : String
  price_for_two : ℚ
  rating : ℚ
  cuisines : String
  votes : ℤ
deriving DecidableEq

/-- One row of the prepared dataframe built by `load_prepared_dataframe`
(src/phase_2/retrieval.py): original text fields plus the normalized helper
columns the filter and ranker read. -/
structure Row where
  name : String
  location : String
  cuisines : String
  rating_numeric : ℚ
  price_for_two_numeric : ℚ
  votes_numeric : ℤ
  location_normalized : String
  cuisines_normalized : String
deriving DecidableEq

/-- The cuisine terms actually used by the filter: Python
`[c.strip().lower() for c in desired_cuisines if c.strip()]`. -/
def cuisineTerms (cs : List String) : List String :=
  (cs.filter (fun c => decide (pyStripStr c ≠ ""))).map (fun c => pyLowerStr (pyStripStr c))

/-- Case analysis on an `Option`, written as a function so that hypotheses
about the scrutinee rewrite cleanly in proofs (declared early so the filter
steps below can use it). -/
def optCase {α β : Type _} (o : Option α) (d : β) (f : α → β) : β :=
  match o with
  | none => d
  | some a => f a

/-- The `min_price` filter step (`filtered[filtered[...] >= prefs.min_price]`). -/
def applyMinPrice (prefs : UserPreferences) (df : List Row) : List Row :=
  optCase prefs.min_price df
    (fun mp => df.filter (fun r => decide (mp ≤ r.price_for_two_numeric)))

/-- The `max_price` filter step. -/
def applyMaxPrice (prefs : UserPreferences) (df : List Row) : List Row :=
  optCase prefs.max_price df
    (fun mp => df.filter (fun r => decide (r.price_for_two_numeric ≤ mp)))

/-- The locality filter step: skipped when `prefs.locality` is `None` or
empty (Python truthiness); otherwise `str.contains` — a regex search — of
the stripped, lower-cased locality against the normalized location column. -/
def applyLocality (prefs : UserPreferences) (df : List Row) : List Row :=
  optCase prefs.locality df
    (fun l =>
      if l = "" then df
      else df.filter (fun r => pyContains (pyLowerStr (pyStripStr l)) r.location_normalized))

/-- The `min_rating` filter step. -/
def applyMinRating (prefs : UserPreferences) (df : List Row) : List Row :=
  optCase prefs.min_rating df
    (fun mr => df.filter (fun r => decide (mr ≤ r.rating_numeric)))

/-- The cuisine filter step: a row passes when its normalized cuisine text
`str.contains` (a regex search of) any of the stripped, lower-cased terms;
an empty list or a list whose terms all strip to empty applies no filter. -/
def applyCuisines (prefs : UserPreferences) (df : List Row) : List Row :=
  optCase prefs.desired_cuisines df
    (fun cs =>
      if cs = [] then df
      else
        if cuisineTerms cs = [] then df
        else df.filter
          (fun r => (cuisineTerms cs).any (fun t => pyContains t r.cuisines_normalized)))

/-- Embedding of `filter_restaurants` (src/phase_2/retrieval.py): apply the
price bounds, locality substring, minimum rating and cuisine constraints in
source order (the source reassigns `filtered` once per constraint). -/
def filter_restaurants (df : List Row) (prefs : UserPreferences) : List Row :=
  applyCuisines prefs (applyMinRating prefs (applyLocality prefs
    (applyMaxPrice prefs (applyMinPrice prefs df))))

/-- The preference record with every field absent. -/
def emptySpec : UserPreferences :=
  ⟨none, none, none, none, none⟩

/-- Embedding of the ranking score (src/phase_2/retrieval.py
`rank_restaurants`): `rating_numeric * 2.0 + log1p(max(votes, 0))`.
`math.log1p` is modelled exactly as `Real.log (1 + x)`. -/
noncomputable def rowScore (r : Row) : ℝ :=
  (r.rating_numeric : ℝ) * 2 + Real.log (1 + ((max r.votes_numeric 0 : ℤ) : ℝ))

/-- The composite sort key of `rank_restaurants`: `sort_values` by
`[score, rating_numeric, votes_numeric, price_for_two_numeric]` with
`ascending=[False, False, False, True]`, encoded lexicographically with the
descending components negated. -/
noncomputable def rowSortKey (r : Row) : Lex (ℝ × Lex (ℚ × Lex (ℤ × ℚ))) :=
  toLex (-(rowScore r), toLex (-r.rating_numeric, toLex (-r.votes_numeric, r.price_for_two_numeric)))

/-- Row comparison: `a` sorts no later than `b`. -/
def rowLE (a b : Row) : Prop :=
  rowSortKey a ≤ rowSortKey b

noncomputable instance : DecidableRel rowLE :=
  fun a b => inferInstanceAs (Decidable (rowSortKey a ≤ rowSortKey b))

instance : IsTotal Row rowLE :=
  ⟨fun a b => le_total (rowSortKey a) (rowSortKey b)⟩

instance : IsTrans Row rowLE :=
  ⟨fun _ _ _ hab hbc => le_trans hab hbc⟩

/-- Embedding of the `df.sort_values(...)` step of `rank_restaurants`.
pandas sorts several keys with `numpy.lexsort`, a stable sort; any stable
sort over a total preorder is extensionally unique, and is modelled here by
insertion sort. -/
noncomputable def sortRows (df : List Row) : List Row :=
  List.insertionSort rowLE df

/-- The `Restaurant(...)` construction at the end of `rank_restaurants`. -/
def rowToRestaurant (r : Row) : Restaurant :=
  ⟨r.name, r.location, r.price_for_two_numeric, r.rating_numeric, r.cuisines, r.votes_numeric⟩

/-- Embedding of `rank_restaurants` (src/phase_2/retrieval.py): empty input
returns `[]`; otherwise sort by the composite key, truncate with
`.head(max_results)`, and build `Restaurant` values. -/
noncomputable def rank_restaurants (df : List Row) (max_results : ℕ) : List Restaurant :=
  if df = [] then []
  else ((sortRows df).take max_results).map rowToRestaurant

/-- The ranking score read off a returned `Restaurant`. -/
noncomputable def restScore (r : Restaurant) : ℝ :=
  (r.rating : ℝ) * 2 + Real.log (1 + ((max r.votes 0 : ℤ) : ℝ))

/-- The composite sort key read off a returned `Restaurant`. -/
noncomputable def restSortKey (r : Restaurant) : Lex (ℝ × Lex (ℚ × Lex (ℤ × ℚ))) :=
  toLex (-(restScore r), toLex (-r.rating, toLex (-r.votes, r.price_for_two)))

/-- Output ordering claimed by the spec: score desc, then rating desc, then
votes desc, then price asc. -/
def restOrdered (a b : Restaurant) : Prop :=
  restSortKey a ≤ restSortKey b

/-- Boolean test for full-composite-key ties against a reference row (needs
classical choice since the score lives in `ℝ`). -/
noncomputable def sameKeyB (r₀ r : Row) : Bool :=
  decide (rowSortKey r = rowSortKey r₀)

/-- JSON values as produced by Python `json.loads`: `dict`, `list`, `str`,
`int`, `float`, `bool`, `None`.  Numbers with a fraction or exponent decode
to `float` (a `PyFloat`, an infinity when the literal overflows the double
range), bare integers to arbitrary-precision `int`, as in Python. -/
inductive Json where
  | null
  | bool (b : Bool)
  | int (n : ℤ)
  | float (f : PyFloat)
  | str (s : String)
  | arr (elems : List Json)
  | obj (fields : List (String × Json))

instance {ε α : Type _} [DecidableEq ε] [DecidableEq α] : DecidableEq (Except ε α) :=
  fun x y =>
    match x, y with
    | .error a, .error b => decidable_of_iff (a = b) (by simp)
    | .error _, .ok _ => isFalse (by simp)
    | .ok _, .error _ => isFalse (by simp)
    | .ok a, .ok b => decidable_of_iff (a = b) (by simp)

/-- JSON insignificant whitespace. -/
def jWs (c : Char) : Bool :=
  decide (c ∈ [' ', '\t', '\n', '\r'])

/-- Skip JSON insignificant whitespace. -/
def skipJWs (cs : List Char) : List Char :=
  cs.dropWhile jWs

/-- Hexadecimal digit value for `\\uXXXX` escapes. -/
def hexVal (c : Char) : Option ℕ :=
  let n := (pyToLower c).toNat
  if 48 ≤ n ∧ n ≤ 57 then some (n - 48)
  else if 97 ≤ n ∧ n ≤ 102 then some (n - 87)
  else none

/-- Single-character JSON escapes. -/
def escMap (c : Char) : Option Char :=
  if c = '"' then some '"'
  else if c = '\\' then some '\\'
  else if c = '/' then some '/'
  else if c = 'b' then some '\x08'
  else if c = 'f' then some '\x0c'
  else if c = 'n' then some '\n'
  else if c = 'r' then some '\r'
  else if c = 't' then some '\t'
  else none

/-- Parse the body of a JSON string after the opening quote (fuel-indexed;
surrogate-pair recombination of `\\uXXXX` escapes is not modelled). -/
def parseJStringBody : ℕ → List Char → Option (List Char × List Char)
  | 0, _ => none
  | _, [] => none
  | f + 1, c :: r =>
    if c = '"' then some ([], r)
    else if c = '\\' then
      match r with
      | 'u' :: a :: b :: c2 :: d :: r3 =>
        match hexVal a, hexVal b, hexVal c2, hexVal d with
        | some ha, some hb, some hc, some hd =>
          (parseJStringBody f r3).map
            (fun p => (Char.ofNat (((ha * 16 + hb) * 16 + hc) * 16 + hd) :: p.1, p.2))
        | _, _, _, _ => none
      | e :: r2 =>
        match escMap e with
        | some ec => (parseJStringBody f r2).map (fun p => (ec :: p.1, p.2))
        | none => none
      | [] => none
    else (parseJStringBody f r).map (fun p => (c :: p.1, p.2))

/-- `10 ^ z` in `ℚ` for an integer exponent, computed through `Nat.pow` so
that concrete evaluation stays shallow. -/
def qPow10 (z : ℤ) : ℚ :=
  if 0 ≤ z then ((10 ^ z.toNat : ℕ) : ℚ) else 1 / ((10 ^ (-z).toNat : ℕ) : ℚ)

/-- The overflow boundary of decimal-to-double conversion: a decimal value
with magnitude at least `2^1024 - 2^970` — the midpoint between the largest
finite double `2^1024 - 2^971` and `2^1024`, which round-to-nearest-even
sends up — converts to an infinity. -/
def FLOAT_OVERFLOW_BOUND : ℚ :=
  ((2 ^ 1024 - 2 ^ 970 : ℕ) : ℚ)

/-- The `float` a JSON number literal decodes to: CPython `json` calls
`float(...)` on the literal text, which overflows to an infinity beyond the
double range (e.g. `1e400`); finite values are kept exact. -/
def jFloatOfRat (q : ℚ) : Json :=
  if FLOAT_OVERFLOW_BOUND ≤ q then Json.float PyFloat.inf
  else if q ≤ -FLOAT_OVERFLOW_BOUND then Json.float PyFloat.ninf
  else Json.float (PyFloat.finite q)

/-- Parse a JSON number (strict JSON grammar: optional minus, no leading
zeros, optional fraction and exponent).  Python json's non-standard
`Infinity`/`NaN` literals are not modelled. -/
def parseJNumber (cs : List Char) : Option (Json × List Char) :=
  let sn : Bool × List Char := match cs with
    | c :: r => if c = '-' then (true, r) else (false, c :: r)
    | [] => (false, [])
  match sn.2 with
  | [] => none
  | c :: r =>
    if ¬ (isDigitC c = true) then none
    else
      let ipr : List Char × List Char :=
        if c = '0' then (['0'], r) else (c :: r.takeWhile isDigitC, r.dropWhile isDigitC)
      let fpr : Option (List Char × List Char) :=
        match ipr.2 with
        | d :: r2 =>
          if d = '.' then
            let fd := r2.takeWhile isDigitC
            if fd = [] then none else some (fd, r2.dropWhile isDigitC)
          else some ([], d :: r2)
        | [] => some ([], [])
      match fpr with
      | none => none
      | some fp =>
        let epr : Option (Bool × ℤ × List Char) :=
          match fp.2 with
          | e :: r3 =>
            if e = 'e' ∨ e = 'E' then
              let es := splitSignZ r3
              let ed := es.2.takeWhile isDigitC
              if ed = [] then none
              else some (true, es.1 * (digitsToNat ed : ℤ), es.2.dropWhile isDigitC)
            else some (false, 0, e :: r3)
          | [] => some (false, 0, [])
        match epr with
        | none => none
        | some ep =>
          let sgnZ : ℤ := if sn.1 then -1 else 1
          if fp.1 = [] ∧ ¬ ep.1 then
            some (Json.int (sgnZ * (digitsToNat ipr.1 : ℤ)), ep.2.2)
          else
            let sgnQ : ℚ := if sn.1 then -1 else 1
            let mant : ℚ :=
              (digitsToNat ipr.1 : ℚ) + (digitsToNat fp.1 : ℚ) / (10 : ℚ) ^ fp.1.length
            some (jFloatOfRat (sgnQ * mant * qPow10 ep.2.1), ep.2.2)

mutual

/-- Parse one JSON value (fuel-indexed model of Python `json.loads`). -/
def parseValue : ℕ → List Char → Option (Json × List Char)
  | 0, _ => none
  | f + 1, cs =>
    match skipJWs cs with
    | [] => none
    | c :: r =>
      if c = '"' then (parseJStringBody (f + 1) r).map (fun p => (Json.str ⟨p.1⟩, p.2))
      else if c = '[' then
        match skipJWs r with
        | ']' :: r2 => some (Json.arr [], r2)
        | r2 => (parseElems f r2).map (fun p => (Json.arr p.1, p.2))
      else if c = '\x7b' then
        match skipJWs r with
        | '\x7d' :: r2 => some (Json.obj [], r2)
        | r2 => (parseMembers f r2).map (fun p => (Json.obj p.1, p.2))
      else if c = 't' then
        match r with
        | 'r' :: 'u' :: 'e' :: r2 => some (Json.bool true, r2)
        | _ => none
      else if c = 'f' then
        match r with
        | 'a' :: 'l' :: 's' :: 'e' :: r2 => some (Json.bool false, r2)
        | _ => none
      else if c = 'n' then
        match r with
        | 'u' :: 'l' :: 'l' :: r2 => some (Json.null, r2)
        | _ => none
      else parseJNumber (c :: r)

/-- Parse the elements of a non-empty JSON array after `[`. -/
def parseElems : ℕ → List Char → Option (List Json × List Char)
  | 0, _ => none
  | f + 1, cs =>
    match parseValue f cs with
    | none => none
    | some (v, rest) =>
      match skipJWs rest with
      | ',' :: r2 => (parseElems f r2).map (fun p => (v :: p.1, p.2))
      | ']' :: r2 => some ([v], r2)
      | _ => none

/-- Parse the members of a non-empty JSON object after the opening brace. -/
def parseMembers : ℕ → List Char → Option (List (String × Json) × List Char)
  | 0, _ => none
  | f + 1, cs =>
    match skipJWs cs with
    | '"' :: r =>
      match parseJStringBody (f + 1) r with
      | none => none
      | some (k, r2) =>
        match skipJWs r2 with
        | ':' :: r3 =>
          match parseValue f r3 with
          | none => none
          | some (v, r4) =>
            match skipJWs r4 with
            | ',' :: r5 => (parseMembers f r5).map (fun p => ((⟨k⟩, v) :: p.1, p.2))
            | '\x7d' :: r5 => some ([(⟨k⟩, v)], r5)
            | _ => none
        | _ => none
    | _ => none

end

/-- Model of Python `json.loads`: parse one value, then require only
whitespace to remain. -/
def json_loads (s : String) : Except String Json :=
  match parseValue (2 * s.data.length + 8) s.data with
  | some (v, rest) => if skipJWs rest = [] then .ok v else .error ("Extra data")
  | none => .error ("Expecting value")

/-- Model of Python `str.find(ch)`: index of the first occurrence, `-1` if
absent. -/
def pyFindChar (cs : List Char) (c : Char) : ℤ :=
  match cs.findIdx? (fun x => x == c) with
  | some i => (i : ℤ)
  | none => -1

/-- Model of Python `str.rfind(ch)`: index of the last occurrence, `-1` if
absent. -/
def pyRFindChar (cs : List Char) (c : Char) : ℤ :=
  match cs.reverse.findIdx? (fun x => x == c) with
  | some i => ((cs.length - 1 - i : ℕ) : ℤ)
  | none => -1

/-- Embedding of `_extract_json_block` (src/phase_3/llm_recommender.py):
slice from the first `{` to the last `}`; error if either is missing or the
last `}` does not come strictly after the first `{`. -/
def _extract_json_block (text : String) : Except String String :=
  let start := pyFindChar text.data '\x7b'
  let e := pyRFindChar text.data '\x7d'
  if start = -1 ∨ e = -1 ∨ e ≤ start then
    .error ("No JSON object found in LLM response.")
  else
    .ok ⟨(text.data.drop start.toNat).take (e + 1 - start).toNat⟩

/-- A recommendation paired with its reason
(src/phase_3/llm_recommender.py `LLMRestaurantRecommendation`). -/
structure LLMRestaurantRecommendation where
  restaurant : Restaurant
  reason : String
deriving DecidableEq

/-- Model of Python `dict.get` on a decoded JSON object (later duplicate
keys override earlier ones, as in `json.loads`). -/
def dictGet (kvs : List (String × Json)) (k : String) : Option Json :=
  match kvs.reverse.find? (fun p => p.1 == k) with
  | some p => some p.2
  | none => none

/-- Outcome of the `int(x)` call in the entry loop of
`_parse_llm_response`: a value, an exception the source catches
(`TypeError`/`ValueError`), or the uncaught `OverflowError` on an infinite
float. -/
inductive IntCast where
  | val (n : ℤ)
  | caught
  | overflow
deriving DecidableEq

/-- Model of Python `int(x)` on a JSON-decoded value: ints, booleans and
finite floats (truncated toward zero) convert; non-numeric strings and
`nan` floats (`ValueError`), `None` and containers (`TypeError`) raise
exceptions the source catches; an infinite float raises an uncaught
`OverflowError`. -/
def pyIntJ (v : Json) : IntCast :=
  match v with
  | .int n => .val n
  | .float (.finite q) => .val (ratTrunc q)
  | .float .nan => .caught
  | .float .inf => .overflow
  | .float .ninf => .overflow
  | .bool b => .val (if b then 1 else 0)
  | .str s =>
    match pyIntStr s.data with
    | some n => .val n
    | none => .caught
  | .null => .caught
  | .arr _ => .caught
  | .obj _ => .caught

/-- `int(item.get("candidate_index"))` on a decoded entry: a missing key
gives `int(None)`, a caught `TypeError`. -/
def idxCast (kvs : List (String × Json)) : IntCast :=
  match dictGet kvs ("candidate_index") with
  | none => .caught
  | some v => pyIntJ v

/-- Case analysis on an `IntCast`, written as a function so hypotheses
about the scrutinee rewrite cleanly in proofs. -/
def castCase {β : Type _} (c : IntCast) (f : ℤ → β) (dc dov : β) : β :=
  match c with
  | .val n => f n
  | .caught => dc
  | .overflow => dov

/-- Message of the `OverflowError` CPython raises for `int(float("inf"))`,
which the entry loop's `except (TypeError, ValueError)` does not catch. -/
def OVERFLOW_ERROR : String :=
  "OverflowError: cannot convert float infinity to integer"

/-- Model of Python `repr(x)` on a JSON-decoded value.  Scalar forms follow
CPython; the rendering of nested containers and of float values is
approximated (no claim depends on those renderings, only on totality). -/
def pyReprJ : Json → String
  | .null => "None"
  | .bool b => if b then "True" else "False"
  | .int n => toString n
  | .float (.finite q) => toString q
  | .float .nan => "nan"
  | .float .inf => "inf"
  | .float .ninf => "-inf"
  | .str s => "'" ++ s ++ "'"
  | .arr l => "[" ++ String.intercalate (", ") (l.attach.map (fun x => pyReprJ x.1)) ++ "]"
  | .obj kvs =>
    "\x7b" ++
      String.intercalate (", ")
        (kvs.attach.map (fun p => "'" ++ p.1.1 ++ "': " ++ pyReprJ p.1.2)) ++ "\x7d"
termination_by v => sizeOf v
decreasing_by
  · have := List.sizeOf_lt_of_mem x.2
    simp only [Json.arr.sizeOf_spec]
    omega
  · have h1 := List.sizeOf_lt_of_mem p.2
    have h2 : sizeOf p.1.2 < sizeOf p.1 := by
      rcases p.1 with ⟨a, b⟩
      simp only [Prod.mk.sizeOf_spec]
      omega
    simp only [Json.obj.sizeOf_spec]
    omega

/-- Model of Python `str(x)` on a JSON-decoded value: identity on strings,
`repr`-like rendering otherwise. -/
def pyStrJ (v : Json) : String :=
  match v with
  | .str s => s
  | v' => pyReprJ v'

/-- Model of Python iteration `for item in recs` over a JSON-decoded value:
lists yield elements, strings yield one-character strings, dicts yield their
keys; scalars are not iterable. -/
def pyIter (v : Json) : Option (List Json) :=
  match v with
  | .arr l => some l
  | .str s => some (s.data.map (fun c => Json.str ⟨[c]⟩))
  | .obj kvs => some (kvs.map (fun p => Json.str p.1))
  | _ => none

/-- Embedding of the entry loop of `_parse_llm_response`
(src/phase_3/llm_recommender.py lines 45-57): for each entry, a caught
`int(...)` failure on `candidate_index` (a `TypeError`/`ValueError`,
including a missing key, which yields `int(None)`) and an out-of-range
index skip the entry; an infinite-float index raises an uncaught
`OverflowError` that aborts the whole parse; otherwise the entry yields
`candidates[idx]` with the trimmed, str-coerced reason (missing reason
defaulting to the empty string).  A non-dict entry raises
`AttributeError`, also uncaught. -/
def processItems : List Json → List Restaurant → Except String (List LLMRestaurantRecommendation)
  | [], _ => .ok []
  | item :: rest, cands =>
    match item with
    | .obj kvs =>
      castCase (idxCast kvs)
        (fun idx =>
          if h : idx < 0 ∨ (cands.length : ℤ) ≤ idx then processItems rest cands
          else
            (processItems rest cands).map
              (fun tail =>
                ⟨cands.get ⟨idx.toNat, by omega⟩,
                 pyStripStr (pyStrJ ((dictGet kvs ("reason")).getD (Json.str "")))⟩ :: tail))
        (processItems rest cands)
        (.error OVERFLOW_ERROR)
    | _ => .error ("AttributeError: no attribute get")

/-- The dispatch of `_parse_llm_response` after `json.loads`: read
`data.get("recommendations", [])` (an `AttributeError` if `data` is not a
dict), iterate over it (a `TypeError` if it is not iterable), and process
the entries. -/
def recsOfData (data : Json) (candidates : List Restaurant) :
    Except String (List LLMRestaurantRecommendation) :=
  match data with
  | .obj kvs =>
    optCase (pyIter ((dictGet kvs ("recommendations")).getD (Json.arr [])))
      (.error ("TypeError: not iterable"))
      (fun items => processItems items candidates)
  | _ => .error ("AttributeError: no attribute get")

/-- Embedding of `_parse_llm_response` (src/phase_3/llm_recommender.py):
extract the brace-delimited block, `json.loads` it, and process the decoded
value; errors (uncaught Python exceptions) propagate. -/
def _parse_llm_response (raw_text : String) (candidates : List Restaurant) :
    Except String (List LLMRestaurantRecommendation) :=
  (_extract_json_block raw_text).bind (fun block =>
    (json_loads block).bind (fun data => recsOfData data candidates))

/-- The environment variables read by `load_groq_config`
(src/phase_3/client.py); `none` models an unset variable. -/
structure GroqEnv where
  groq_api_key : Option String
  groq_api_base : Option String
  groq_model : Option String
deriving DecidableEq

/-- Groq client configuration (src/phase_3/client.py `GroqConfig`). -/
structure GroqConfig where
  api_key : String
  base_url : String
  model : String
deriving DecidableEq

/-- Default Groq endpoint (src/phase_3/client.py). -/
def GROQ_DEFAULT_BASE_URL : String :=
  "https://api.groq.com/openai/v1"

/-- Default Groq model (src/phase_3/client.py). -/
def GROQ_DEFAULT_MODEL : String :=
  "llama-3.3-70b-versatile"

/-- Model of Python `str.rstrip("/")`. -/
def pyRStripSlash (s : String) : String :=
  ⟨(s.data.reverse.dropWhile (fun c => c == '/')).reverse⟩

/-- The `GroqClientError` message raised by `load_groq_config` when the key
is missing (src/phase_3/client.py). -/
def GROQ_KEY_ERROR : String :=
  "GROQ_API_KEY environment variable is not set. Set it before running Phase 3."

/-- Embedding of `load_groq_config` (src/phase_3/client.py): a missing or
empty `GROQ_API_KEY` (Python truthiness of `not api_key`) raises
`GroqClientError` before anything else happens. -/
def load_groq_config (env : GroqEnv) : Except String GroqConfig :=
  match env.groq_api_key with
  | none => .error GROQ_KEY_ERROR
  | some k =>
    if k = "" then .error GROQ_KEY_ERROR
    else
      .ok ⟨k, pyRStripSlash ((env.groq_api_base).getD GROQ_DEFAULT_BASE_URL),
           (env.groq_model).getD GROQ_DEFAULT_MODEL⟩

/-- Observable network actions of the Groq client. -/
inductive NetEvent where
  | chatRequest
deriving DecidableEq

/-- Embedding of `get_llm_recommendations` (src/phase_3/llm_recommender.py)
with the Phase 2 candidates passed in explicitly and the Groq transport
reified: the returned event list records whether a network request was
issued, and `rawResponse` is the oracle text the service would return.
Mirrors the source order: empty candidates short-circuit, then
`GroqClient()` loads the configuration (raising on a missing key), and only
then is the chat request sent and its response parsed. -/
def get_llm_recommendations (env : GroqEnv) (candidates : List Restaurant)
    (rawResponse : String) :
    List NetEvent × Except String (List LLMRestaurantRecommendation) :=
  if candidates = [] then ([], .ok [])
  else
    match load_groq_config env with
    | .error e => ([], .error e)
    | .ok _ => ([NetEvent.chatRequest], _parse_llm_response rawResponse candidates)

/-- The full Phase 2 + Phase 3 pipeline on an in-memory prepared dataframe,
with the reasoning-service response mocked by `rawResponse`. -/
noncomputable def pipeline_with_response (df : List Row) (prefs : UserPreferences)
    (env : GroqEnv) (rawResponse : String) (max_candidates : ℕ) :
    List NetEvent × Except String (List LLMRestaurantRecommendation) :=
  get_llm_recommendations env (rank_restaurants (filter_restaurants df prefs) max_candidates)
    rawResponse

/-- The value a single non-aborting recommendations entry contributes to
the parser output: `none` when the entry is skipped (caught `int(...)`
failure or out-of-range `candidate_index`), otherwise the grounded
recommendation. -/
def entryRec (cands : List Restaurant) (item : Json) : Option LLMRestaurantRecommendation :=
  match item with
  | .obj kvs =>
    castCase (idxCast kvs)
      (fun idx =>
        if h : idx < 0 ∨ (cands.length : ℤ) ≤ idx then none
        else
          some ⟨cands.get ⟨idx.toNat, by omega⟩,
                pyStripStr (pyStrJ ((dictGet kvs ("reason")).getD (Json.str "")))⟩)
      none none
  | _ => none

/-- The entry aborts the whole parse: its `candidate_index` is an infinite
float, so `int(...)` raises the uncaught `OverflowError`. -/
def entryAborts (item : Json) : Bool :=
  match item with
  | .obj kvs => idxCast kvs == IntCast.overflow
  | _ => false

/-- Raw inputs on which the CPython normalizers cannot go negative or
non-numeric: strings containing no minus sign and no `n`/`N` — the latter
rules out the case-insensitive `nan`/`inf`/`infinity` float literals, whose
`nan` value falsifies `>= 0` — and non-negative numeric values. -/
def pySignSafe : PyVal → Prop
  | .pyStr s => '-' ∉ s.data ∧ 'n' ∉ s.data ∧ 'N' ∉ s.data
  | .pyFloat q => 0 ≤ q
  | .pyInt n => 0 ≤ n
  | .pyBool _ => True
  | .pyNone => True

/-- The rational denoted by the decimal literal `X.Y` with digit strings
`xs` and `ys`. -/
def ratOfParts (xs ys : List Char) : ℚ :=
  (digitsToNat xs : ℚ) + (digitsToNat ys : ℚ) / (10 : ℚ) ^ ys.length

/-- Index of the first occurrence of a character, if any. -/
def firstIdxOf? (cs : List Char) (c : Char) : Option ℕ :=
  cs.findIdx? (fun x => x == c)

/-- Index of the last occurrence of a character, if any. -/
def lastIdxOf? (cs : List Char) (c : Char) : Option ℕ :=
  (cs.reverse.findIdx? (fun x => x == c)).map (fun i => cs.length - 1 - i)

/-- Example prepared-dataframe row used in concrete checks. -/
def exRow : Row :=
  ⟨"A", "BTM Layout", "North Indian", 4, 300, 100, "btm layout", "north indian"⟩

/-- Example preference record used in concrete checks. -/
def exPrefs : UserPreferences :=
  ⟨some 200, some 600, some "BTM", some (7 / 2), some ["North Indian "]⟩

/-- Example environment with `GROQ_API_KEY` unset. -/
def exEnvNoKey : GroqEnv :=
  ⟨none, none, none⟩

/-- Example prose response without braces. -/
def exProse : String :=
  "I cannot answer that."

/-- Example response with prose around a braced block. -/
def exBraced : String :=
  "a\x7bx\x7dz"

/-- Example response used in concrete checks. -/
def exResponse : String :=
  "\x7b\"recommendations\": [\x7b\"candidate_index\": 0, \"reason\": \"ok\"\x7d]\x7d"

/-- Example candidate used in concrete checks. -/
def exRestaurantA : Restaurant :=
  ⟨"A", "BTM", 300, 4, "North Indian", 100⟩

/-- Example response whose second entry is valid but whose first
`candidate_index`, the JSON literal `1e400`, decodes to `float('inf')`. -/
def exOverflowResponse : String :=
  "\x7b\"recommendations\": [\x7b\"candidate_index\": 1e400\x7d, \x7b\"candidate_index\": 0\x7d]\x7d"

/-- Preference record whose locality pattern contains the regex wildcard
`.`. -/
def exDotPrefs : UserPreferences :=
  ⟨none, none, some ("b.m"), none, none⟩

theorem optCase_none {α β : Type _} (d : β) (f : α → β) : optCase none d f = d :=
  rfl

theorem optCase_some {α β : Type _} (a : α) (d : β) (f : α → β) : optCase (some a) d f = f a :=
  rfl

theorem except_error_bind {ε α β : Type _} (e : ε) (f : α → Except ε β) :
    (Except.error e).bind f = .error e :=
  rfl

theorem except_ok_bind {ε α β : Type _} (a : α) (f : α → Except ε β) :
    (Except.ok a).bind f = f a :=
  rfl

theorem except_error_map {ε α β : Type _} (e : ε) (f : α → β) :
    (Except.error e : Except ε α).map f = .error e :=
  rfl

theorem except_ok_map {ε α β : Type _} (a : α) (f : α → β) :
    (Except.ok a : Except ε α).map f = .ok (f a) :=
  rfl

theorem castCase_val {β : Type _} (n : ℤ) (f : ℤ → β) (dc dov : β) :
    castCase (.val n) f dc dov = f n :=
  rfl

theorem castCase_caught {β : Type _} (f : ℤ → β) (dc dov : β) :
    castCase .caught f dc dov = dc :=
  rfl

theorem castCase_overflow {β : Type _} (f : ℤ → β) (dc dov : β) :
    castCase .overflow f dc dov = dov :=
  rfl

/-- Every recommendation produced by the entry loop wraps an element of the
candidate list, located by its index. -/
theorem processItems_grounded (items : List Json) (cands : List Restaurant)
    (out : List LLMRestaurantRecommendation) (h : processItems items cands = .ok out) :
    ∀ rec ∈ out, ∃ i : Fin cands.length, rec.restaurant = cands.get i := by
  induction items generalizing out with
  | nil =>
    simp only [processItems, Except.ok.injEq] at h
    subst h
    intro rec hrec
    simp at hrec
  | cons item rest ih =>
    cases item with
    | obj kvs =>
      simp only [processItems] at h
      cases hdx : idxCast kvs with
      | caught =>
        rw [hdx, castCase_caught] at h
        exact ih out h
      | overflow =>
        rw [hdx, castCase_overflow] at h
        cases h
      | val idx =>
        rw [hdx, castCase_val] at h
        by_cases hrange : idx < 0 ∨ (cands.length : ℤ) ≤ idx
        · rw [dif_pos hrange] at h
          exact ih out h
        · rw [dif_neg hrange] at h
          cases hpr : processItems rest cands with
          | error e =>
            rw [hpr, except_error_map] at h
            cases h
          | ok tail =>
            rw [hpr, except_ok_map] at h
            simp only [Except.ok.injEq] at h
            subst h
            intro rec hrec
            rcases List.mem_cons.mp hrec with hh | ht
            · subst hh
              exact ⟨⟨idx.toNat, by omega⟩, rfl⟩
            · exact ih tail hpr rec ht
    | null => simp only [processItems] at h; cases h
    | bool b => simp only [processItems] at h; cases h
    | int n => simp only [processItems] at h; cases h
    | float q => simp only [processItems] at h; cases h
    | str s => simp only [processItems] at h; cases h
    | arr l => simp only [processItems] at h; cases h

/-- C1: for every raw response text and candidate list, every recommendation
returned by `_parse_llm_response` wraps a candidate that is an element of
the candidate list passed in (located at the entry's in-range index), so an
entry whose `candidate_index` is `< 0` or `≥ len(candidates)` never appears
in the output. -/
theorem zomato_c1_grounding (raw : String) (cands : List Restaurant)
    (out : List LLMRestaurantRecommendation) (h : _parse_llm_response raw cands = .ok out) :
    ∀ rec ∈ out, ∃ i : Fin cands.length, rec.restaurant = cands.get i := by
  unfold _parse_llm_response at h
  cases hx : _extract_json_block raw with
  | error e => rw [hx, except_error_bind] at h; cases h
  | ok block =>
    rw [hx, except_ok_bind] at h
    cases hl : json_loads block with
    | error e => rw [hl, except_error_bind] at h; cases h
    | ok data =>
      rw [hl, except_ok_bind] at h
      cases data with
      | obj kvs =>
        simp only [recsOfData] at h
        cases hit : pyIter ((dictGet kvs ("recommendations")).getD (Json.arr [])) with
        | none => rw [hit, optCase_none] at h; cases h
        | some items =>
          rw [hit, optCase_some] at h
          exact processItems_grounded items cands out h
      | null => simp only [recsOfData] at h; cases h
      | bool b => simp only [recsOfData] at h; cases h
      | int n => simp only [recsOfData] at h; cases h
      | float q => simp only [recsOfData] at h; cases h
      | str s => simp only [recsOfData] at h; cases h
      | arr l => simp only [recsOfData] at h; cases h

/-- C1 witness: the example response against a one-element candidate list
produces a recommendation grounded in that list. -/
theorem zomato_c1_witness :
    ∃ i : Fin ([exRestaurantA].length),
      (LLMRestaurantRecommendation.mk exRestaurantA ("ok")).restaurant = [exRestaurantA].get i :=
  zomato_c1_grounding exResponse [exRestaurantA] [⟨exRestaurantA, "ok"⟩]
    (by with_unfolding_all decide) ⟨exRestaurantA, "ok"⟩ (by simp)

/-- One step of the entry loop on a non-aborting dict entry, phrased
through `entryRec`. -/
theorem processItems_cons_obj (kvs : List (String × Json)) (rest : List Json)
    (cands : List Restaurant) (hnov : idxCast kvs ≠ .overflow) :
    processItems (Json.obj kvs :: rest) cands =
      optCase (entryRec cands (Json.obj kvs)) (processItems rest cands)
        (fun r => (processItems rest cands).map (fun tail => r :: tail)) := by
  simp only [processItems, entryRec]
  cases hdx : idxCast kvs with
  | caught => rfl
  | overflow => exact absurd hdx hnov
  | val idx =>
    simp only [castCase_val]
    by_cases hrange : idx < 0 ∨ (cands.length : ℤ) ≤ idx
    · rw [dif_pos hrange, dif_pos hrange]
      rfl
    · rw [dif_neg hrange, dif_neg hrange]
      rfl

/-- One step of the entry loop on an aborting dict entry: the uncaught
`OverflowError` fails the whole parse regardless of the remaining
entries. -/
theorem processItems_cons_abort (kvs : List (String × Json)) (rest : List Json)
    (cands : List Restaurant) (hov : idxCast kvs = .overflow) :
    processItems (Json.obj kvs :: rest) cands = .error OVERFLOW_ERROR := by
  simp only [processItems]
  rw [hov, castCase_overflow]

/-- The head entry's effect only depends on the tail through the tail's
result. -/
theorem processItems_cons_congr (item : Json) (r1 r2 : List Json)
    (cands : List Restaurant)
    (h : processItems r1 cands = processItems r2 cands) :
    processItems (item :: r1) cands = processItems (item :: r2) cands := by
  cases item with
  | obj kvs =>
    simp only [processItems]
    rw [h]
  | null => rfl
  | bool b => rfl
  | int n => rfl
  | float q => rfl
  | str s => rfl
  | arr l => rfl

/-- On a list of dict entries, none of which aborts, the loop is exactly
`filterMap entryRec`. -/
theorem processItems_all_obj (items : List Json) (cands : List Restaurant)
    (hobj : ∀ it ∈ items, ∃ kvs, it = Json.obj kvs)
    (hnab : ∀ it ∈ items, entryAborts it = false) :
    processItems items cands = .ok (items.filterMap (entryRec cands)) := by
  induction items with
  | nil => rfl
  | cons item rest ih =>
    obtain ⟨kvs, rfl⟩ := hobj item (List.mem_cons_self item rest)
    have hnov : idxCast kvs ≠ .overflow := by
      have hk := hnab _ (List.mem_cons_self _ rest)
      simp only [entryAborts] at hk
      exact beq_eq_false_iff_ne.mp hk
    have ihr := ih (fun it hit => hobj it (List.mem_cons_of_mem _ hit))
      (fun it hit => hnab it (List.mem_cons_of_mem _ hit))
    rw [processItems_cons_obj _ _ _ hnov]
    simp only [ihr]
    cases hent : entryRec cands (Json.obj kvs) with
    | none => simp [List.filterMap_cons, hent, optCase_none]
    | some r => simp [List.filterMap_cons, hent, optCase_some, except_ok_map]

/-- C10 (amended): on a recommendations list of dict entries none of which
carries an infinite-float `candidate_index`, the response parser yields
exactly one recommendation per valid entry, in response order (`filterMap`
over the entries); its output is not capped at `max_results` — a response
repeating one valid entry `n` times yields all `n` copies, so more than
`max_results` valid indices all appear, and duplicate `candidate_index`
values produce duplicate recommendations for the same candidate.  An
infinite-float entry instead aborts the whole parse with an uncaught
`OverflowError` (see the counterexample). -/
theorem zomato_c10_parser_entrywise :
    (∀ (items : List Json) (cands : List Restaurant),
        (∀ it ∈ items, ∃ kvs, it = Json.obj kvs) →
        (∀ it ∈ items, entryAborts it = false) →
        processItems items cands = .ok (items.filterMap (entryRec cands))) ∧
    (∀ (n : ℕ) (cands : List Restaurant) (kvs : List (String × Json))
        (r : LLMRestaurantRecommendation), entryRec cands (.obj kvs) = some r →
        processItems (List.replicate n (.obj kvs)) cands = .ok (List.replicate n r)) := by
  constructor
  · exact fun items cands hobj hnab => processItems_all_obj items cands hobj hnab
  · intro n cands kvs r hent
    have hnov : idxCast kvs ≠ .overflow := by
      intro he
      have hn : entryRec cands (Json.obj kvs) = none := by
        simp only [entryRec]
        rw [he, castCase_overflow]
      rw [hn] at hent
      cases hent
    rw [processItems_all_obj _ _
      (fun it hit => ⟨kvs, List.eq_of_mem_replicate hit⟩)
      (fun it hit => by
        obtain rfl := List.eq_of_mem_replicate hit
        simp only [entryAborts]
        exact beq_eq_false_iff_ne.mpr hnov)]
    congr 1
    induction n with
    | zero => rfl
    | succ n ih => simp [List.replicate_succ, List.filterMap_cons, hent, ih]

/-- C10 counterexample: the per-entry mapping is not unconditional — a
response whose first entry's `candidate_index` is the JSON literal `1e400`
(which decodes to `float('inf')`) makes the whole parse fail with the
uncaught `OverflowError`, although its second entry is valid and on its own
yields a recommendation. -/
theorem zomato_c10_counterexample :
    entryRec [exRestaurantA] (Json.obj [(("candidate_index"), Json.int 0)]) =
      some ⟨exRestaurantA, ""⟩ ∧
    _parse_llm_response exOverflowResponse [exRestaurantA] = .error OVERFLOW_ERROR := by
  with_unfolding_all decide

/-- C10 witness: seven copies of one valid entry (more than the default
`max_results = 5`) yield seven recommendations of the same candidate. -/
theorem zomato_c10_witness :
    processItems (List.replicate 7 (Json.obj [(("candidate_index"), Json.int 0)]))
        [exRestaurantA] =
      .ok (List.replicate 7 ⟨exRestaurantA, ""⟩) :=
  zomato_c10_parser_entrywise.2 7 [exRestaurantA] [(("candidate_index"), Json.int 0)]
    ⟨exRestaurantA, ""⟩ (by with_unfolding_all decide)

/-- C8 (amended): an entry whose `candidate_index` raises a caught
`TypeError`/`ValueError` in `int(...)` (a non-numeric string, `nan`,
`None`/missing, or a container) is silently dropped while the remaining
entries are processed as if it were absent; a kept entry's reason is the
str-coercion of the `reason` field, trimmed, and a missing reason yields
the empty string; but an entry whose `candidate_index` is an infinite float
raises an uncaught `OverflowError` that fails the whole request (see the
counterexample). -/
theorem zomato_c8_entry_defects :
    (∀ (pre post : List Json) (bad : List (String × Json)) (cands : List Restaurant),
        idxCast bad = .caught →
        processItems (pre ++ Json.obj bad :: post) cands = processItems (pre ++ post) cands) ∧
    (∀ (kvs : List (String × Json)) (cands : List Restaurant) (idx : ℤ)
        (hidx : idxCast kvs = .val idx)
        (h0 : 0 ≤ idx) (hlt : idx < (cands.length : ℤ)),
        processItems [Json.obj kvs] cands =
          .ok [⟨cands.get ⟨idx.toNat, by omega⟩,
               pyStripStr (pyStrJ ((dictGet kvs ("reason")).getD (Json.str "")))⟩]) ∧
    (∀ kvs : List (String × Json), dictGet kvs ("reason") = none →
        pyStripStr (pyStrJ ((dictGet kvs ("reason")).getD (Json.str ""))) = "") ∧
    (∀ (rest : List Json) (kvs : List (String × Json)) (cands : List Restaurant),
        idxCast kvs = .overflow →
        processItems (Json.obj kvs :: rest) cands = .error OVERFLOW_ERROR) := by
  refine ⟨?_, ?_, ?_, ?_⟩
  · intro pre post bad cands hbad
    have hnov : idxCast bad ≠ .overflow := fun he => by
      rw [hbad] at he
      cases he
    have hent : entryRec cands (Json.obj bad) = none := by
      simp only [entryRec]
      rw [hbad, castCase_caught]
    induction pre with
    | nil =>
      simp only [List.nil_append]
      rw [processItems_cons_obj _ _ _ hnov, hent, optCase_none]
    | cons p pre' ih =>
      simp only [List.cons_append]
      exact processItems_cons_congr p _ _ cands ih
  · intro kvs cands idx hidx h0 hlt
    have hnov : idxCast kvs ≠ .overflow := fun he => by
      rw [hidx] at he
      cases he
    have hent : entryRec cands (Json.obj kvs) =
        some ⟨cands.get ⟨idx.toNat, by omega⟩,
              pyStripStr (pyStrJ ((dictGet kvs ("reason")).getD (Json.str "")))⟩ := by
      simp only [entryRec]
      rw [hidx]
      simp only [castCase_val]
      rw [dif_neg (by omega)]
    rw [processItems_cons_obj _ _ _ hnov, hent, optCase_some]
    rfl
  · intro kvs h
    rw [h]
    rfl
  · intro rest kvs cands hov
    exact processItems_cons_abort kvs rest cands hov

/-- C8 counterexample: an entry whose `candidate_index` is the JSON literal
`1e400` is not silently dropped — `json.loads` decodes it to
`float('inf')` and `int(...)` raises an `OverflowError` outside the
`except (TypeError, ValueError)` clause, so the whole request fails even
though the next entry is valid; moreover `int("3_0")` parses (PEP 515), so
an entry with that string index is read as index `30`, not dropped as
unparsable. -/
theorem zomato_c8_counterexample :
    _parse_llm_response exOverflowResponse [exRestaurantA] = .error OVERFLOW_ERROR ∧
    _parse_llm_response exOverflowResponse [exRestaurantA] ≠ .ok [⟨exRestaurantA, ""⟩] ∧
    pyIntStr (("3_0" : String).data) = some 30 := by
  with_unfolding_all decide

/-- C8 witness: a concrete entry with a non-integer `candidate_index` is
dropped while a later valid entry still produces its recommendation, a
missing reason trims to the empty string, and an infinite-float index
aborts the parse. -/
theorem zomato_c8_witness :
    (processItems
        [Json.obj [(("candidate_index"), Json.str "x")],
         Json.obj [(("candidate_index"), Json.int 0)]] [exRestaurantA] =
      processItems [Json.obj [(("candidate_index"), Json.int 0)]] [exRestaurantA]) ∧
    (processItems [Json.obj [(("candidate_index"), Json.int 0)]] [exRestaurantA] =
      .ok [⟨exRestaurantA, ""⟩]) ∧
    pyStripStr (pyStrJ ((dictGet [] ("reason")).getD (Json.str ""))) = "" ∧
    processItems [Json.obj [(("candidate_index"), Json.float PyFloat.inf)]] [exRestaurantA] =
      .error OVERFLOW_ERROR :=
  ⟨zomato_c8_entry_defects.1 [] [Json.obj [(("candidate_index"), Json.int 0)]]
      [(("candidate_index"), Json.str "x")] [exRestaurantA] (by with_unfolding_all decide),
   zomato_c8_entry_defects.2.1 [(("candidate_index"), Json.int 0)] [exRestaurantA] 0
      (by with_unfolding_all decide) (by with_unfolding_all decide) (by with_unfolding_all decide),
   zomato_c8_entry_defects.2.2.1 [] rfl,
   zomato_c8_entry_defects.2.2.2 [] [(("candidate_index"), Json.float PyFloat.inf)]
      [exRestaurantA] (by with_unfolding_all decide)⟩

/-- C9: whenever `GROQ_API_KEY` is missing (unset or empty), the pipeline
never issues a network request, and any call that reaches the reasoning
layer (a non-empty candidate list) fails with the configuration error
raised by `load_groq_config` inside the `GroqClient` constructor, before
`client.chat` runs. -/
theorem zomato_c9_config_before_network (env : GroqEnv) (cands : List Restaurant) (resp : String)
    (hkey : env.groq_api_key = none ∨ env.groq_api_key = some "") :
    NetEvent.chatRequest ∉ (get_llm_recommendations env cands resp).1 ∧
    (cands ≠ [] → (get_llm_recommendations env cands resp).2 = .error GROQ_KEY_ERROR) := by
  have hcfg : load_groq_config env = .error GROQ_KEY_ERROR := by
    rcases hkey with h | h
    · unfold load_groq_config
      rw [h]
    · unfold load_groq_config
      rw [h]
      rfl
  unfold get_llm_recommendations
  by_cases hc : cands = []
  · rw [if_pos hc]
    exact ⟨List.not_mem_nil _, fun hne => absurd hc hne⟩
  · rw [if_neg hc, hcfg]
    exact ⟨List.not_mem_nil _, fun _ => rfl⟩

/-- C9 witness: with the key unset and one candidate, no request is sent
and the configuration error is raised. -/
theorem zomato_c9_witness :
    NetEvent.chatRequest ∉ (get_llm_recommendations exEnvNoKey [exRestaurantA] exResponse).1 ∧
    (get_llm_recommendations exEnvNoKey [exRestaurantA] exResponse).2 = .error GROQ_KEY_ERROR :=
  ⟨(zomato_c9_config_before_network exEnvNoKey [exRestaurantA] exResponse (Or.inl rfl)).1,
   (zomato_c9_config_before_network exEnvNoKey [exRestaurantA] exResponse (Or.inl rfl)).2
     (by simp)⟩

theorem findIdxQ_none_iff (cs : List Char) (c : Char) :
    cs.findIdx? (fun x => x == c) = none ↔ c ∉ cs := by
  rw [List.findIdx?_eq_none_iff]
  constructor
  · intro h hc
    simpa using h c hc
  · intro h x hx
    exact beq_eq_false_iff_ne.mpr (fun e => h (e ▸ hx))

theorem pyFindChar_neg_iff (cs : List Char) (c : Char) :
    pyFindChar cs c = -1 ↔ c ∉ cs := by
  unfold pyFindChar
  cases h : cs.findIdx? (fun x => x == c) with
  | none => exact ⟨fun _ => (findIdxQ_none_iff cs c).mp h, fun _ => rfl⟩
  | some i =>
    show (i : ℤ) = -1 ↔ c ∉ cs
    constructor
    · intro hi
      exact absurd hi (by omega)
    · intro hm
      rw [(findIdxQ_none_iff cs c).mpr hm] at h
      cases h

theorem pyRFindChar_neg_iff (cs : List Char) (c : Char) :
    pyRFindChar cs c = -1 ↔ c ∉ cs := by
  unfold pyRFindChar
  cases h : cs.reverse.findIdx? (fun x => x == c) with
  | none =>
    refine ⟨fun _ => ?_, fun _ => rfl⟩
    have := (findIdxQ_none_iff cs.reverse c).mp h
    simpa [List.mem_reverse] using this
  | some i =>
    show ((cs.length - 1 - i : ℕ) : ℤ) = -1 ↔ c ∉ cs
    constructor
    · intro hi
      exact absurd hi (by omega)
    · intro hm
      rw [(findIdxQ_none_iff cs.reverse c).mpr (by simpa [List.mem_reverse] using hm)] at h
      cases h

theorem lastIdxQ_none_iff (cs : List Char) (c : Char) :
    lastIdxOf? cs c = none ↔ c ∉ cs := by
  unfold lastIdxOf?
  cases h : cs.reverse.findIdx? (fun x => x == c) with
  | none =>
    refine ⟨fun _ => ?_, fun _ => rfl⟩
    have := (findIdxQ_none_iff cs.reverse c).mp h
    simpa [List.mem_reverse] using this
  | some i =>
    constructor
    · intro hi
      cases hi
    · intro hm
      rw [(findIdxQ_none_iff cs.reverse c).mpr (by simpa [List.mem_reverse] using hm)] at h
      cases h

theorem pyFindChar_of_first (cs : List Char) (c : Char) (i : ℕ)
    (h : firstIdxOf? cs c = some i) : pyFindChar cs c = i := by
  unfold firstIdxOf? at h
  unfold pyFindChar
  rw [h]

theorem pyRFindChar_of_last (cs : List Char) (c : Char) (j : ℕ)
    (h : lastIdxOf? cs c = some j) : pyRFindChar cs c = j := by
  unfold lastIdxOf? at h
  unfold pyRFindChar
  cases hr : cs.reverse.findIdx? (fun x => x == c) with
  | none => rw [hr] at h; cases h
  | some i =>
    rw [hr] at h
    simp at h
    show ((cs.length - 1 - i : ℕ) : ℤ) = (j : ℤ)
    rw [h]

/-- C7: if the response text has no open brace, no close brace, or its last
close brace does not come after its first open brace, `_extract_json_block`
raises the parse error and `_parse_llm_response` propagates it (no silently
empty list); otherwise the span from the first open brace to the last close
brace is taken as the structured payload. -/
theorem zomato_c7_brace_extraction (text : String) (cands : List Restaurant) :
    ((('\x7b' ∉ text.data) ∨ ('\x7d' ∉ text.data) ∨
        (∀ i j, firstIdxOf? text.data '\x7b' = some i →
          lastIdxOf? text.data '\x7d' = some j → j ≤ i)) →
      (_extract_json_block text = .error ("No JSON object found in LLM response.") ∧
       _parse_llm_response text cands = .error ("No JSON object found in LLM response."))) ∧
    (∀ i j, firstIdxOf? text.data '\x7b' = some i → lastIdxOf? text.data '\x7d' = some j →
      i < j → _extract_json_block text = .ok ⟨(text.data.drop i).take (j + 1 - i)⟩) := by
  constructor
  · intro hcond
    have herr : _extract_json_block text = .error ("No JSON object found in LLM response.") := by
      unfold _extract_json_block
      rw [if_pos ?hc]
      case hc =>
        rcases hcond with h | h | h
        · exact Or.inl ((pyFindChar_neg_iff _ _).mpr h)
        · exact Or.inr (Or.inl ((pyRFindChar_neg_iff _ _).mpr h))
        · cases hf : firstIdxOf? text.data '\x7b' with
          | none =>
            unfold firstIdxOf? at hf
            exact Or.inl ((pyFindChar_neg_iff _ _).mpr ((findIdxQ_none_iff _ _).mp hf))
          | some i =>
            cases hl : lastIdxOf? text.data '\x7d' with
            | none =>
              exact Or.inr (Or.inl ((pyRFindChar_neg_iff _ _).mpr ((lastIdxQ_none_iff _ _).mp hl)))
            | some j =>
              have hji := h i j hf hl
              refine Or.inr (Or.inr ?_)
              rw [pyFindChar_of_first _ _ _ hf, pyRFindChar_of_last _ _ _ hl]
              exact_mod_cast hji
    refine ⟨herr, ?_⟩
    unfold _parse_llm_response
    rw [herr, except_error_bind]
  · intro i j hf hl hij
    unfold _extract_json_block
    rw [pyFindChar_of_first _ _ _ hf, pyRFindChar_of_last _ _ _ hl]
    rw [if_neg ?hcnd]
    case hcnd => rintro (h1 | h2 | h3) <;> omega
    have h1 : ((i : ℤ)).toNat = i := by omega
    have h2 : (((j : ℤ) + 1 - (i : ℤ)).toNat) = j + 1 - i := by omega
    rw [h1, h2]

theorem mem_of_mem_pyStripList {x : Char} {cs : List Char} (h : x ∈ pyStripList cs) :
    x ∈ cs := by
  unfold pyStripList at h
  rw [List.mem_reverse] at h
  have h2 := (List.dropWhile_sublist isPyWsB).subset h
  rw [List.mem_reverse] at h2
  exact (List.dropWhile_sublist isPyWsB).subset h2

theorem pyToUpper_eq_dash {c : Char} (h : pyToUpper c = '-') : c = '-' := by
  unfold pyToUpper at h
  cases hf : caseTable.find? (fun p => p.1 == c) with
  | none =>
    rw [hf] at h
    exact h
  | some p =>
    rw [hf] at h
    have h2 : p.2 = '-' := h
    have hp := List.mem_of_find?_eq_some hf
    exfalso
    clear h hf
    fin_cases hp <;> exact absurd h2 (by decide)

theorem dash_not_mem_map_pyToUpper {l : List Char} (h : '-' ∉ l) :
    '-' ∉ l.map pyToUpper := by
  intro hm
  rcases List.mem_map.mp hm with ⟨c, hc, he⟩
  exact h (pyToUpper_eq_dash he ▸ hc)

theorem splitSignQ_fst_of_no_dash {cs : List Char} (h : '-' ∉ cs) :
    (splitSignQ cs).1 = 1 := by
  rcases cs with _ | ⟨c, r⟩
  · rfl
  · show (if c = '+' then ((1 : ℚ), r) else if c = '-' then (-1, r) else (1, c :: r)).1 = 1
    by_cases h1 : c = '+'
    · rw [if_pos h1]
    · rw [if_neg h1,
        if_neg (show ¬(c = '-') from fun hc => h (hc ▸ List.mem_cons_self c r))]

theorem splitSignZ_fst_of_no_dash {cs : List Char} (h : '-' ∉ cs) :
    (splitSignZ cs).1 = 1 := by
  rcases cs with _ | ⟨c, r⟩
  · rfl
  · show (if c = '+' then ((1 : ℤ), r) else if c = '-' then (-1, r) else (1, c :: r)).1 = 1
    by_cases h1 : c = '+'
    · rw [if_pos h1]
    · rw [if_neg h1,
        if_neg (show ¬(c = '-') from fun hc => h (hc ▸ List.mem_cons_self c r))]

theorem pyParseFloatCore_nonneg {cs : List Char} {q : ℚ} (hnd : '-' ∉ cs)
    (h : pyParseFloatCore cs = some q) : 0 ≤ q := by
  have hsgn : (splitSignQ cs).1 = 1 := splitSignQ_fst_of_no_dash hnd
  simp only [pyParseFloatCore] at h
  split at h
  · cases h
  · split at h
    · simp only [Option.some.injEq] at h
      subst h
      rw [hsgn]
      positivity
    · split at h
      · split at h
        · cases h
        · simp only [Option.some.injEq] at h
          subst h
          rw [hsgn]
          positivity
      · cases h

theorem pyParseIntCore_nonneg {cs : List Char} {n : ℤ} (hnd : '-' ∉ cs)
    (h : pyParseIntCore cs = some n) : 0 ≤ n := by
  have hsgn : (splitSignZ cs).1 = 1 := splitSignZ_fst_of_no_dash hnd
  unfold pyParseIntCore at h
  split at h
  · cases h
  · split at h
    · split at h
      · simp only [Option.some.injEq] at h
        subst h
        rw [hsgn]
        positivity
      · cases h
    · cases h

theorem ratTrunc_nonneg {q : ℚ} (h : 0 ≤ q) : 0 ≤ ratTrunc q := by
  unfold ratTrunc
  rw [if_neg (not_lt.mpr h)]
  exact Rat.le_floor.mpr (by exact_mod_cast h)

theorem pyFloatStr_nonneg {cs : List Char} {q : ℚ} (hnd : '-' ∉ cs)
    (h : pyFloatStr cs = some q) : 0 ≤ q :=
  pyParseFloatCore_nonneg (fun hm => hnd (mem_of_mem_pyStripList hm)) h

theorem pyIntStr_nonneg {cs : List Char} {n : ℤ} (hnd : '-' ∉ cs)
    (h : pyIntStr cs = some n) : 0 ≤ n :=
  pyParseIntCore_nonneg (fun hm => hnd (mem_of_mem_pyStripList hm)) h

theorem mem_of_mem_splitSignQ {x : Char} {cs : List Char}
    (h : x ∈ (splitSignQ cs).2) : x ∈ cs := by
  rcases cs with _ | ⟨c, r⟩
  · exact h
  · have h2 : x ∈ (if c = '+' then ((1 : ℚ), r) else if c = '-' then ((-1 : ℚ), r)
        else ((1 : ℚ), c :: r)).2 := h
    by_cases h1 : c = '+'
    · rw [if_pos h1] at h2
      exact List.mem_cons_of_mem c h2
    · rw [if_neg h1] at h2
      by_cases hm : c = '-'
      · rw [if_pos hm] at h2
        exact List.mem_cons_of_mem c h2
      · rw [if_neg hm] at h2
        exact h2

theorem pyToLower_eq_n {c : Char} (h : pyToLower c = 'n') : c = 'n' ∨ c = 'N' := by
  unfold pyToLower at h
  cases hf : caseTable.find? (fun p => p.2 == c) with
  | none =>
    rw [hf] at h
    exact Or.inl h
  | some p =>
    rw [hf] at h
    have h2 : p.1 = 'n' := h
    have hbeq := List.find?_some hf
    have hp := List.mem_of_find?_eq_some hf
    right
    fin_cases hp <;>
      first
        | exact absurd h2 (by decide)
        | exact (eq_of_beq hbeq).symm

theorem n_not_mem_map_pyToLower {l : List Char} (hn : 'n' ∉ l) (hN : 'N' ∉ l) :
    'n' ∉ l.map pyToLower := by
  intro hm
  rcases List.mem_map.mp hm with ⟨c, hc, he⟩
  rcases pyToLower_eq_n he with rfl | rfl
  · exact hn hc
  · exact hN hc

theorem pyFloatLit_eq_none {cs : List Char} (hn : 'n' ∉ cs) (hN : 'N' ∉ cs) :
    pyFloatLit cs = none := by
  have hmap : 'n' ∉ (splitSignQ cs).2.map pyToLower :=
    n_not_mem_map_pyToLower (fun hm => hn (mem_of_mem_splitSignQ hm))
      (fun hm => hN (mem_of_mem_splitSignQ hm))
  unfold pyFloatLit
  rw [if_neg ?h1, if_neg ?h2]
  case h1 =>
    intro he
    exact hmap (by rw [he]; decide)
  case h2 =>
    rintro (he | he) <;> exact hmap (by rw [he]; decide)

/-- C2 counterexample: the normalizers do not clamp to the documented
ranges — a rating text with numeric part above 5 yields a value above 5,
minus-signed price or vote text yields a negative value, and the minus-free
input `nan` makes `float(...)` return `nan`, which is not `>= 0`. -/
theorem zomato_c2_counterexample :
    ¬ (_parse_rating (.pyStr ("9.9/5")) ≤ 5) ∧
    _parse_price (.pyStr ("-100")) = .finite (-100) ∧
    ¬ pfNonneg (_parse_price (.pyStr ("-100"))) ∧
    _parse_price (.pyStr ("nan")) = .nan ∧
    ¬ pfNonneg (_parse_price (.pyStr ("nan"))) ∧
    _parse_votes (.pyStr ("-3")) < 0 := by
  with_unfolding_all decide

/-- C2 (amended): the field normalizers are total with the documented zero
defaults, but do not clamp parsed values to the documented ranges, and
`float(...)` can return `nan` (for the `nan` literal) or an infinity; for
every raw input carrying no minus sign and no `n`/`N` character — which
rules out the case-insensitive `nan`/`inf`/`infinity` literals — the three
normalizers return non-negative values (a rating numeric part above 5, such
as `9.9/5`, still passes through above 5). -/
theorem zomato_c2_normalizer_nonneg (raw : PyVal) (h : pySignSafe raw) :
    0 ≤ _parse_rating raw ∧ pfNonneg (_parse_price raw) ∧ 0 ≤ _parse_votes raw := by
  cases raw with
  | pyStr s =>
    obtain ⟨hnd, hn, hN⟩ := h
    have hnd2 : '-' ∉ pyStripList (removeCommas s.data) := fun hm =>
      hnd ((List.filter_sublist s.data).subset (mem_of_mem_pyStripList hm))
    refine ⟨?_, ?_, ?_⟩
    · by_cases hsent : (List.map pyToUpper (pyStripList s.data)) = ['N', 'E', 'W'] ∨
          (List.map pyToUpper (pyStripList s.data)) = ['-'] ∨
          (List.map pyToUpper (pyStripList s.data)) = []
      · have heq : _parse_rating (.pyStr s) = 0 := by
          simp only [_parse_rating]
          rw [if_pos hsent]
        rw [heq]
      · have heq : _parse_rating (.pyStr s) =
            (match pyFloatStr (pyStripList ((List.map pyToUpper
                (pyStripList s.data)).takeWhile (fun c => decide (c ≠ '/')))) with
             | some q => q
             | none => (0 : ℚ)) := by
          simp only [_parse_rating]
          rw [if_neg hsent]
        rw [heq]
        have hchain : '-' ∉ pyStripList ((List.map pyToUpper
            (pyStripList s.data)).takeWhile (fun c => decide (c ≠ '/'))) := by
          intro hm
          have h1 := mem_of_mem_pyStripList hm
          have h2 := (List.takeWhile_sublist (fun c => decide (c ≠ '/'))).subset h1
          exact dash_not_mem_map_pyToUpper
            (fun hm2 => hnd (mem_of_mem_pyStripList hm2)) h2
        cases hp : pyFloatStr (pyStripList ((List.map pyToUpper
            (pyStripList s.data)).takeWhile (fun c => decide (c ≠ '/')))) with
        | none => exact le_refl 0
        | some q => exact pyFloatStr_nonneg hchain hp
    · have hlit : pyFloatLit (pyStripList (pyStripList (removeCommas s.data))) = none :=
        pyFloatLit_eq_none
          (fun hm => hn ((List.filter_sublist s.data).subset
            (mem_of_mem_pyStripList (mem_of_mem_pyStripList hm))))
          (fun hm => hN ((List.filter_sublist s.data).subset
            (mem_of_mem_pyStripList (mem_of_mem_pyStripList hm))))
      have heq : _parse_price (.pyStr s) =
          (match pyFloatPy (pyStripList (removeCommas s.data)) with
           | some f => f
           | none => PyFloat.finite 0) := by
        simp only [_parse_price]
      rw [heq]
      have heq2 : pyFloatPy (pyStripList (removeCommas s.data)) =
          (pyParseFloatCore (pyStripList (pyStripList (removeCommas s.data)))).map
            PyFloat.finite := by
        simp only [pyFloatPy]
        rw [hlit]
      rw [heq2]
      cases hp : pyParseFloatCore (pyStripList (pyStripList (removeCommas s.data))) with
      | none =>
        show pfNonneg (PyFloat.finite 0)
        exact le_refl 0
      | some q =>
        show pfNonneg (PyFloat.finite q)
        exact pyParseFloatCore_nonneg (fun hm => hnd2 (mem_of_mem_pyStripList hm)) hp
    · have heq : _parse_votes (.pyStr s) =
          (match pyIntStr (pyStripList (removeCommas s.data)) with
           | some n => n
           | none => (0 : ℤ)) := by
        simp only [_parse_votes]
      rw [heq]
      cases hp : pyIntStr (pyStripList (removeCommas s.data)) with
      | none => exact le_refl 0
      | some n => exact pyIntStr_nonneg hnd2 hp
  | pyFloat q =>
    exact ⟨le_refl 0, h, ratTrunc_nonneg h⟩
  | pyInt n =>
    refine ⟨le_refl 0, ?_, h⟩
    show (0 : ℚ) ≤ (n : ℚ)
    exact_mod_cast h
  | pyBool b =>
    cases b <;>
      exact ⟨by with_unfolding_all decide, by with_unfolding_all decide,
             by with_unfolding_all decide⟩
  | pyNone =>
    exact ⟨le_refl 0, le_refl 0, le_refl 0⟩

/-- C2 witness: a comma-separated input free of minus signs and `n`/`N`
evaluates to non-negative normalized values. -/
theorem zomato_c2_witness :
    0 ≤ _parse_rating (.pyStr ("1,200")) ∧ pfNonneg (_parse_price (.pyStr ("1,200"))) ∧
      0 ≤ _parse_votes (.pyStr ("1,200")) :=
  zomato_c2_normalizer_nonneg (.pyStr ("1,200"))
    (show '-' ∉ ("1,200" : String).data ∧ 'n' ∉ ("1,200" : String).data ∧
        'N' ∉ ("1,200" : String).data by with_unfolding_all decide)

/-- C7 witness: prose without braces raises the parse error through both
functions, and a braced span inside prose is extracted. -/
theorem zomato_c7_witness :
    (_extract_json_block exProse = .error ("No JSON object found in LLM response.") ∧
     _parse_llm_response exProse [exRestaurantA] = .error ("No JSON object found in LLM response.")) ∧
    _extract_json_block exBraced = .ok ⟨(exBraced.data.drop 1).take (3 + 1 - 1)⟩ :=
  ⟨(zomato_c7_brace_extraction exProse [exRestaurantA]).1
     (Or.inl (by with_unfolding_all decide)),
   (zomato_c7_brace_extraction exBraced [exRestaurantA]).2 1 3
     (by with_unfolding_all decide) (by with_unfolding_all decide) (by omega)⟩

theorem isPrefixOf_eq_true_iff {l1 l2 : List Char} :
    l1.isPrefixOf l2 = true ↔ ∃ t, l1 ++ t = l2 := by
  induction l1 generalizing l2 with
  | nil => simp [List.isPrefixOf]
  | cons a t1 ih =>
    cases l2 with
    | nil => simp [List.isPrefixOf]
    | cons b t2 =>
      simp only [List.isPrefixOf, Bool.and_eq_true, beq_iff_eq, ih, List.cons_append,
        List.cons.injEq]
      constructor
      · rintro ⟨rfl, t, rfl⟩
        exact ⟨t, rfl, rfl⟩
      · rintro ⟨t, rfl, rfl⟩
        exact ⟨rfl, t, rfl⟩

theorem pyInStr_iff (pat hay : String) : pyInStr pat hay = true ↔ SubstrOf pat hay := by
  unfold pyInStr SubstrOf
  rw [List.any_eq_true]
  constructor
  · rintro ⟨t, ht, hp⟩
    rw [List.mem_tails] at ht
    obtain ⟨pre, hpre⟩ := ht
    obtain ⟨suf, hsuf⟩ := isPrefixOf_eq_true_iff.mp hp
    exact ⟨pre, suf, by rw [← hpre, ← hsuf, List.append_assoc]⟩
  · rintro ⟨pre, suf, hps⟩
    refine ⟨pat.data ++ suf, ?_, ?_⟩
    · rw [List.mem_tails]
      exact ⟨pre, by rw [hps, List.append_assoc]⟩
    · exact isPrefixOf_eq_true_iff.mpr ⟨suf, rfl⟩

theorem reMatchHere_eq_isPrefixOf {pat : List Char} (hdot : '.' ∉ pat) :
    ∀ t : List Char, reMatchHere pat t = pat.isPrefixOf t := by
  induction pat with
  | nil => intro t; cases t <;> rfl
  | cons p ps ih =>
    intro t
    cases t with
    | nil => rfl
    | cons c cs =>
      have hp : p ≠ '.' := fun he => hdot (he ▸ List.mem_cons_self p ps)
      show (reCharMatch p c && reMatchHere ps cs) = (p == c && ps.isPrefixOf cs)
      rw [ih (fun hm => hdot (List.mem_cons_of_mem p hm)) cs]
      unfold reCharMatch
      rw [if_neg hp]

/-- On metacharacter-free patterns, the `str.contains` regex search is
exactly substring containment. -/
theorem pyContains_iff_substr {pat hay : String} (hlit : regexLiteral pat) :
    pyContains pat hay = true ↔ SubstrOf pat hay := by
  have hdot : '.' ∉ pat.data := fun hm => hlit '.' hm (by decide)
  unfold pyContains
  rw [show (fun t => reMatchHere pat.data t) = (fun t => pat.data.isPrefixOf t) from
    funext (reMatchHere_eq_isPrefixOf hdot)]
  exact pyInStr_iff pat hay

theorem mem_applyMinPrice {prefs : UserPreferences} {df : List Row} {r : Row}
    (h : r ∈ applyMinPrice prefs df) :
    r ∈ df ∧ ∀ mp, prefs.min_price = some mp → mp ≤ r.price_for_two_numeric := by
  unfold applyMinPrice at h
  cases hp : prefs.min_price with
  | none =>
    rw [hp, optCase_none] at h
    exact ⟨h, fun mp hmp => by cases hmp⟩
  | some mp =>
    rw [hp, optCase_some] at h
    rcases List.mem_filter.mp h with ⟨hmem, hcond⟩
    refine ⟨hmem, fun mp' hmp' => ?_⟩
    cases hmp'
    exact of_decide_eq_true hcond

theorem mem_applyMaxPrice {prefs : UserPreferences} {df : List Row} {r : Row}
    (h : r ∈ applyMaxPrice prefs df) :
    r ∈ df ∧ ∀ mp, prefs.max_price = some mp → r.price_for_two_numeric ≤ mp := by
  unfold applyMaxPrice at h
  cases hp : prefs.max_price with
  | none =>
    rw [hp, optCase_none] at h
    exact ⟨h, fun mp hmp => by cases hmp⟩
  | some mp =>
    rw [hp, optCase_some] at h
    rcases List.mem_filter.mp h with ⟨hmem, hcond⟩
    refine ⟨hmem, fun mp' hmp' => ?_⟩
    cases hmp'
    exact of_decide_eq_true hcond

theorem mem_applyLocality {prefs : UserPreferences} {df : List Row} {r : Row}
    (h : r ∈ applyLocality prefs df) :
    r ∈ df ∧ ∀ l, prefs.locality = some l → l ≠ "" →
      regexLiteral (pyLowerStr (pyStripStr l)) →
      SubstrOf (pyLowerStr (pyStripStr l)) r.location_normalized := by
  unfold applyLocality at h
  cases hp : prefs.locality with
  | none =>
    rw [hp, optCase_none] at h
    exact ⟨h, fun l hl => by cases hl⟩
  | some l =>
    rw [hp, optCase_some] at h
    by_cases hl0 : l = ""
    · rw [if_pos hl0] at h
      refine ⟨h, fun l' hl' hne => ?_⟩
      cases hl'
      exact absurd hl0 hne
    · rw [if_neg hl0] at h
      rcases List.mem_filter.mp h with ⟨hmem, hcond⟩
      refine ⟨hmem, fun l' hl' _ hlit => ?_⟩
      cases hl'
      exact (pyContains_iff_substr hlit).mp hcond

theorem mem_applyMinRating {prefs : UserPreferences} {df : List Row} {r : Row}
    (h : r ∈ applyMinRating prefs df) :
    r ∈ df ∧ ∀ mr, prefs.min_rating = some mr → mr ≤ r.rating_numeric := by
  unfold applyMinRating at h
  cases hp : prefs.min_rating with
  | none =>
    rw [hp, optCase_none] at h
    exact ⟨h, fun mr hmr => by cases hmr⟩
  | some mr =>
    rw [hp, optCase_some] at h
    rcases List.mem_filter.mp h with ⟨hmem, hcond⟩
    refine ⟨hmem, fun mr' hmr' => ?_⟩
    cases hmr'
    exact of_decide_eq_true hcond

theorem mem_applyCuisines {prefs : UserPreferences} {df : List Row} {r : Row}
    (h : r ∈ applyCuisines prefs df) :
    r ∈ df ∧ ∀ cs, prefs.desired_cuisines = some cs → cs ≠ [] → cuisineTerms cs ≠ [] →
      (∀ t ∈ cuisineTerms cs, regexLiteral t) →
      ∃ t ∈ cuisineTerms cs, SubstrOf t r.cuisines_normalized := by
  unfold applyCuisines at h
  cases hp : prefs.desired_cuisines with
  | none =>
    rw [hp, optCase_none] at h
    exact ⟨h, fun cs hcs => by cases hcs⟩
  | some cs =>
    rw [hp, optCase_some] at h
    by_cases hcs0 : cs = []
    · rw [if_pos hcs0] at h
      refine ⟨h, fun cs' hcs' hne _ => ?_⟩
      cases hcs'
      exact absurd hcs0 hne
    · rw [if_neg hcs0] at h
      by_cases ht0 : cuisineTerms cs = []
      · rw [if_pos ht0] at h
        refine ⟨h, fun cs' hcs' _ htne => ?_⟩
        cases hcs'
        exact absurd ht0 htne
      · rw [if_neg ht0] at h
        rcases List.mem_filter.mp h with ⟨hmem, hcond⟩
        refine ⟨hmem, fun cs' hcs' _ _ hlits => ?_⟩
        cases hcs'
        rcases List.any_eq_true.mp hcond with ⟨t, htm, htp⟩
        exact ⟨t, htm, (pyContains_iff_substr (hlits t htm)).mp htp⟩

/-- Inserting into a sorted-so-far list is stable with respect to any
predicate that selects rows of a single composite key. -/
theorem filter_orderedInsert_stable (p : Row → Bool)
    (k0 : Lex (ℝ × Lex (ℚ × Lex (ℤ × ℚ)))) (hp : ∀ x, p x = true → rowSortKey x = k0)
    (a : Row) (l : List Row) :
    (List.orderedInsert rowLE a l).filter p =
      if p a then a :: l.filter p else l.filter p := by
  induction l with
  | nil => cases hpa : p a <;> simp [List.orderedInsert, List.filter_cons, hpa]
  | cons b t ih =>
    simp only [List.orderedInsert]
    by_cases hab : rowLE a b
    · rw [if_pos hab]
      cases hpa : p a <;> simp [List.filter_cons, hpa]
    · rw [if_neg hab]
      cases hpb : p b with
      | true =>
        cases hpa : p a with
        | true =>
          exfalso
          refine hab ?_
          show rowSortKey a ≤ rowSortKey b
          rw [hp a hpa, hp b hpb]
        | false => simp [List.filter_cons, hpb, hpa, ih]
      | false =>
        cases hpa : p a <;> simp [List.filter_cons, hpb, hpa, ih]

/-- Insertion sort is stable: filtering by any single-key predicate commutes
with sorting. -/
theorem filter_insertionSort_stable (p : Row → Bool)
    (k0 : Lex (ℝ × Lex (ℚ × Lex (ℤ × ℚ)))) (hp : ∀ x, p x = true → rowSortKey x = k0)
    (l : List Row) :
    (List.insertionSort rowLE l).filter p = l.filter p := by
  induction l with
  | nil => rfl
  | cons a t ih =>
    simp only [List.insertionSort]
    rw [filter_orderedInsert_stable p k0 hp a (List.insertionSort rowLE t), ih]
    cases hpa : p a <;> simp [List.filter_cons, hpa]

/-- C5: `rank_restaurants` returns a sequence ordered by the composite key
(score descending, then rating descending, then votes descending, then
price ascending, where `score = rating * 2.0 + ln(1 + max(votes, 0))`), its
length is `min N len(df)`, and ranking an empty input returns the empty
sequence. -/
theorem zomato_c5_rank_sorted_length (df : List Row) (N : ℕ) :
    List.Sorted restOrdered (rank_restaurants df N) ∧
    (rank_restaurants df N).length = min N df.length ∧
    rank_restaurants [] N = [] := by
  refine ⟨?_, ?_, rfl⟩
  · by_cases hdf : df = []
    · subst hdf
      exact List.sorted_nil
    · unfold rank_restaurants
      rw [if_neg hdf]
      have hs : List.Sorted rowLE (sortRows df) := List.sorted_insertionSort rowLE df
      have htake : List.Sorted rowLE ((sortRows df).take N) :=
        List.Pairwise.sublist (List.take_sublist N (sortRows df)) hs
      exact List.pairwise_map.mpr (htake.imp (fun hab => hab))
  · by_cases hdf : df = []
    · subst hdf
      simp [rank_restaurants]
    · unfold rank_restaurants
      rw [if_neg hdf, List.length_map, List.length_take]
      unfold sortRows
      rw [List.length_insertionSort]

/-- C6: the sort underlying `rank_restaurants` is stable — for any reference
row, the subsequence of rows whose full composite key ties it is unchanged
by sorting, so tied records keep their input order — and the model is a
pure function of its inputs, so two runs of the full pipeline on identical
dataset, preferences, environment and mocked reasoning-service response are
definitionally identical (determinism and idempotence hold by reflexivity
in the functional embedding; tie stability is the substantive content). -/
theorem zomato_c6_stable_deterministic :
    (∀ (df : List Row) (r0 : Row),
      (sortRows df).filter (sameKeyB r0) = df.filter (sameKeyB r0)) ∧
    (∀ (df : List Row) (prefs : UserPreferences) (env : GroqEnv) (resp : String) (maxC : ℕ),
      pipeline_with_response df prefs env resp maxC =
        pipeline_with_response df prefs env resp maxC) := by
  constructor
  · intro df r0
    exact filter_insertionSort_stable (sameKeyB r0) (rowSortKey r0)
      (fun x hx => of_decide_eq_true hx) df
  · intro df prefs env resp maxC
    rfl

theorem map_eq_self_of_forall {f : Char → Char} {l : List Char}
    (h : ∀ c ∈ l, f c = c) : l.map f = l := by
  induction l with
  | nil => rfl
  | cons a t ih =>
    rw [List.map_cons, h a (List.mem_cons_self a t),
      ih (fun c hc => h c (List.mem_cons_of_mem a hc))]

theorem takeWhile_append_all {p : Char → Bool} {l1 l2 : List Char}
    (h : ∀ c ∈ l1, p c = true) : (l1 ++ l2).takeWhile p = l1 ++ l2.takeWhile p := by
  induction l1 with
  | nil => rfl
  | cons a t ih =>
    rw [List.cons_append, List.takeWhile_cons, h a (List.mem_cons_self a t)]
    rw [ih (fun c hc => h c (List.mem_cons_of_mem a hc))]
    rfl

theorem dropWhile_append_all {p : Char → Bool} {l1 l2 : List Char}
    (h : ∀ c ∈ l1, p c = true) : (l1 ++ l2).dropWhile p = l2.dropWhile p := by
  induction l1 with
  | nil => rfl
  | cons a t ih =>
    rw [List.cons_append, List.dropWhile_cons, h a (List.mem_cons_self a t)]
    exact ih (fun c hc => h c (List.mem_cons_of_mem a hc))

theorem takeWhile_eq_self_of_all {p : Char → Bool} {l : List Char}
    (h : ∀ c ∈ l, p c = true) : l.takeWhile p = l := by
  have := @takeWhile_append_all p l [] h
  simpa using this

theorem dropWhile_eq_nil_of_all {p : Char → Bool} {l : List Char}
    (h : ∀ c ∈ l, p c = true) : l.dropWhile p = [] := by
  have := @dropWhile_append_all p l [] h
  simpa using this

theorem takeWhile_cons_neg {p : Char → Bool} {a : Char} (l : List Char)
    (h : p a = false) : (a :: l).takeWhile p = [] := by
  rw [List.takeWhile_cons, h]
  rfl

theorem dropWhile_cons_neg {p : Char → Bool} {a : Char} (l : List Char)
    (h : p a = false) : (a :: l).dropWhile p = a :: l := by
  rw [List.dropWhile_cons, h]
  rfl

/-- Bundled facts about ASCII digit characters used by the rating grammar. -/
theorem digit_char_props {c : Char} (h : isDigitC c = true) :
    c ≠ '+' ∧ c ≠ '-' ∧ c ≠ '.' ∧ c ≠ 'N' ∧ isPyWsB c = false ∧
      pyToUpper c = c ∧ decide (c ≠ '/') = true := by
  have hm : c ∈ ['0', '1', '2', '3', '4', '5', '6', '7', '8', '9'] :=
    of_decide_eq_true h
  fin_cases hm <;> exact ⟨by decide, by decide, by decide, by decide, by decide,
    by decide, by decide⟩

/-- Bundled facts about Python whitespace characters. -/
theorem ws_char_props {c : Char} (h : isPyWsB c = true) :
    pyToUpper c = c ∧ decide (c ≠ '/') = true ∧ isDigitC c = false := by
  have hm : c ∈ [' ', '\t', '\n', '\r', '\x0b', '\x0c'] := of_decide_eq_true h
  fin_cases hm <;> exact ⟨by decide, by decide, by decide⟩

/-- Stripping a list whose first and last characters are not whitespace,
followed by trailing whitespace, keeps exactly the non-whitespace core. -/
theorem pyStripList_append_ws (a : Char) (mid : List Char) (z : Char) (w : List Char)
    (ha : isPyWsB a = false) (hz : isPyWsB z = false)
    (hw : ∀ c ∈ w, isPyWsB c = true) :
    pyStripList ((a :: (mid ++ [z])) ++ w) = a :: (mid ++ [z]) := by
  unfold pyStripList
  rw [List.cons_append, dropWhile_cons_neg _ ha]
  rw [show (a :: (mid ++ [z] ++ w)).reverse = (w.reverse ++ (z :: (mid.reverse ++ [a]))) by
    simp]
  rw [dropWhile_append_all (fun c hc => hw c (List.mem_reverse.mp hc))]
  rw [dropWhile_cons_neg _ hz]
  simp

theorem pyStripList_core (a : Char) (mid : List Char) (z : Char)
    (ha : isPyWsB a = false) (hz : isPyWsB z = false) :
    pyStripList (a :: (mid ++ [z])) = a :: (mid ++ [z]) := by
  have := pyStripList_append_ws a mid z [] ha hz (by intro c hc; cases hc)
  simpa using this

/-- The float parser on a pure decimal literal `X.Y`. -/
theorem pyParseFloatCore_decimal (xs ys : List Char) (hxs : xs ≠ [])
    (hxd : ∀ c ∈ xs, isDigitC c = true) (hys : ys ≠ [])
    (hyd : ∀ c ∈ ys, isDigitC c = true) :
    pyParseFloatCore (xs ++ '.' :: ys) = some (ratOfParts xs ys) := by
  obtain ⟨x, xs2, rfl⟩ := List.exists_cons_of_ne_nil hxs
  have hx := hxd x (List.mem_cons_self x xs2)
  obtain ⟨hxp, hxm, _, _, _, _, _⟩ := digit_char_props hx
  have h1 : splitSignQ ((x :: xs2) ++ '.' :: ys) = (1, (x :: xs2) ++ '.' :: ys) := by
    show (if x = '+' then ((1 : ℚ), xs2 ++ '.' :: ys)
          else if x = '-' then (-1, xs2 ++ '.' :: ys)
          else (1, x :: (xs2 ++ '.' :: ys))) = _
    rw [if_neg hxp, if_neg hxm]
    simp
  have h2 : ((x :: xs2) ++ '.' :: ys).takeWhile isDigitC = x :: xs2 := by
    rw [takeWhile_append_all hxd, takeWhile_cons_neg _ (by decide), List.append_nil]
  have h3 : ((x :: xs2) ++ '.' :: ys).dropWhile isDigitC = '.' :: ys := by
    rw [dropWhile_append_all hxd, dropWhile_cons_neg _ (by decide)]
  have h4 : ys.takeWhile isDigitC = ys := takeWhile_eq_self_of_all hyd
  have h5 : ys.dropWhile isDigitC = [] := dropWhile_eq_nil_of_all hyd
  simp only [pyParseFloatCore, h1, h2, h3, h4, h5]
  simp [ratOfParts]

/-- Text before the first slash, for slash-free prefixes. -/
theorem takeWhile_upto_slash (A : List Char) (hA : ∀ c ∈ A, decide (c ≠ '/') = true)
    (B : List Char) :
    (A ++ '/' :: B).takeWhile (fun c => decide (c ≠ '/')) = A := by
  rw [takeWhile_append_all hA, takeWhile_cons_neg _ (by decide), List.append_nil]

/-- Unfolding of `_parse_rating` on a string value. -/
theorem parse_rating_pyStr (s : String) :
    _parse_rating (.pyStr s) =
      (if (pyStripList s.data).map pyToUpper = ['N', 'E', 'W'] ∨
          (pyStripList s.data).map pyToUpper = ['-'] ∨
          (pyStripList s.data).map pyToUpper = [] then 0
       else
         match pyFloatStr (pyStripList (((pyStripList s.data).map pyToUpper).takeWhile
             (fun c => decide (c ≠ '/')))) with
         | some q => q
         | none => 0) :=
  rfl

/-- The rating parser on strings of the shape `X.Y<ws>/<ws>5`. -/
theorem parse_rating_decimal (xs ys w1 w2 : List Char) (hxs : xs ≠ [])
    (hxd : ∀ c ∈ xs, isDigitC c = true) (hys : ys ≠ [])
    (hyd : ∀ c ∈ ys, isDigitC c = true)
    (hw1 : ∀ c ∈ w1, isPyWsB c = true) (hw2 : ∀ c ∈ w2, isPyWsB c = true) :
    _parse_rating (.pyStr ⟨xs ++ '.' :: ys ++ w1 ++ '/' :: w2 ++ ['5']⟩) = ratOfParts xs ys := by
  obtain ⟨x, xs2, rfl⟩ := List.exists_cons_of_ne_nil hxs
  rcases List.eq_nil_or_concat' ys with rfl | ⟨ym, y, rfl⟩
  · exact absurd rfl hys
  · have hx := hxd x (List.mem_cons_self x xs2)
    have hy : isDigitC y = true := hyd y (by simp)
    have hxprops := digit_char_props hx
    have hyprops := digit_char_props hy
    have h_as : (x :: xs2) ++ '.' :: (ym ++ [y]) ++ w1 ++ '/' :: w2 ++ ['5'] =
        x :: ((((xs2 ++ '.' :: (ym ++ [y])) ++ w1) ++ '/' :: w2) ++ ['5']) := by
      simp
    have hstrip1 : pyStripList
        (x :: ((((xs2 ++ '.' :: (ym ++ [y])) ++ w1) ++ '/' :: w2) ++ ['5'])) =
        x :: ((((xs2 ++ '.' :: (ym ++ [y])) ++ w1) ++ '/' :: w2) ++ ['5']) :=
      pyStripList_core x _ '5' hxprops.2.2.2.2.1 (by decide)
    have hupper : (x :: ((((xs2 ++ '.' :: (ym ++ [y])) ++ w1) ++ '/' :: w2) ++ ['5'])).map
        pyToUpper = x :: ((((xs2 ++ '.' :: (ym ++ [y])) ++ w1) ++ '/' :: w2) ++ ['5']) := by
      apply map_eq_self_of_forall
      intro c hc
      rcases List.mem_cons.mp hc with rfl | hc
      · exact hxprops.2.2.2.2.2.1
      · rcases List.mem_append.mp hc with hc | hc
        · rcases List.mem_append.mp hc with hc | hc
          · rcases List.mem_append.mp hc with hc | hc
            · rcases List.mem_append.mp hc with hc | hc
              · exact (digit_char_props (hxd c (List.mem_cons_of_mem x hc))).2.2.2.2.2.1
              · rcases List.mem_cons.mp hc with rfl | hc
                · decide
                · exact (digit_char_props (hyd c hc)).2.2.2.2.2.1
            · exact (ws_char_props (hw1 c hc)).1
          · rcases List.mem_cons.mp hc with rfl | hc
            · decide
            · exact (ws_char_props (hw2 c hc)).1
        · obtain rfl := List.mem_singleton.mp hc
          decide
    have hsent : ¬(x :: ((((xs2 ++ '.' :: (ym ++ [y])) ++ w1) ++ '/' :: w2) ++ ['5']) =
          ['N', 'E', 'W'] ∨
        x :: ((((xs2 ++ '.' :: (ym ++ [y])) ++ w1) ++ '/' :: w2) ++ ['5']) = ['-'] ∨
        x :: ((((xs2 ++ '.' :: (ym ++ [y])) ++ w1) ++ '/' :: w2) ++ ['5']) = []) := by
      rintro (h | h | h)
      · simp only [List.cons.injEq] at h
        exact hxprops.2.2.2.1 h.1
      · simp only [List.cons.injEq] at h
        exact hxprops.2.1 h.1
      · cases h
    have h_as2 : x :: ((((xs2 ++ '.' :: (ym ++ [y])) ++ w1) ++ '/' :: w2) ++ ['5']) =
        (x :: ((xs2 ++ '.' :: (ym ++ [y])) ++ w1)) ++ '/' :: (w2 ++ ['5']) := by
      simp
    have htake : ((x :: ((xs2 ++ '.' :: (ym ++ [y])) ++ w1)) ++
          '/' :: (w2 ++ ['5'])).takeWhile (fun c => decide (c ≠ '/')) =
        x :: ((xs2 ++ '.' :: (ym ++ [y])) ++ w1) := by
      apply takeWhile_upto_slash
      intro c hc
      rcases List.mem_cons.mp hc with rfl | hc
      · exact hxprops.2.2.2.2.2.2
      · rcases List.mem_append.mp hc with hc | hc
        · rcases List.mem_append.mp hc with hc | hc
          · exact (digit_char_props (hxd c (List.mem_cons_of_mem x hc))).2.2.2.2.2.2
          · rcases List.mem_cons.mp hc with rfl | hc
            · decide
            · exact (digit_char_props (hyd c hc)).2.2.2.2.2.2
        · exact (ws_char_props (hw1 c hc)).2.1
    have h_as3 : x :: ((xs2 ++ '.' :: (ym ++ [y])) ++ w1) =
        (x :: ((xs2 ++ '.' :: ym) ++ [y])) ++ w1 := by
      simp
    have hstrip2 : pyStripList ((x :: ((xs2 ++ '.' :: ym) ++ [y])) ++ w1) =
        x :: ((xs2 ++ '.' :: ym) ++ [y]) :=
      pyStripList_append_ws x (xs2 ++ '.' :: ym) y w1 hxprops.2.2.2.2.1
        hyprops.2.2.2.2.1 hw1
    have hstrip3 : pyStripList (x :: ((xs2 ++ '.' :: ym) ++ [y])) =
        x :: ((xs2 ++ '.' :: ym) ++ [y]) :=
      pyStripList_core x (xs2 ++ '.' :: ym) y hxprops.2.2.2.2.1 hyprops.2.2.2.2.1
    have h_as5 : x :: ((xs2 ++ '.' :: ym) ++ [y]) = (x :: xs2) ++ '.' :: (ym ++ [y]) := by
      simp
    have hparse : pyParseFloatCore ((x :: xs2) ++ '.' :: (ym ++ [y])) =
        some (ratOfParts (x :: xs2) (ym ++ [y])) :=
      pyParseFloatCore_decimal (x :: xs2) (ym ++ [y]) hxs hxd (by simp) hyd
    rw [parse_rating_pyStr]
    rw [show (String.mk ((x :: xs2) ++ '.' :: (ym ++ [y]) ++ w1 ++ '/' :: w2 ++ ['5'])).data =
      (x :: xs2) ++ '.' :: (ym ++ [y]) ++ w1 ++ '/' :: w2 ++ ['5'] from rfl]
    rw [h_as, hstrip1, hupper, if_neg hsent, h_as2, htake, h_as3, hstrip2]
    simp only [pyFloatStr]
    rw [hstrip3, h_as5, hparse]

end ZomatoRec
